import Mathlib

/-!
# ChessValidator: board rules of `chessBoard.cpp`

A shallow embedding of `ChessBoard` (grid, en-passant target, move validation,
check detection, move application) followed by theorems about it.

Conventions of the embedding

* `int` coordinates are `Int`; every subscript `m_board[y][x]` whose indices are
  computed from arguments goes through `ChessBoard.read` / `ChessBoard.write`,
  which answer `Res.outOfRange` outside the 8x8 grid (undefined behaviour in C++).
* the `while` loop of `isPathClear` and the recursion
  `isValidMove -> validateKingMove -> isInCheck -> isValidMove` are driven by a
  `fuel : Nat`; `Res.outOfFuel` means the budget was used up.
* the `for` loops with literal bounds `0 .. 7` run over `idx8`.
-/

namespace ChessValidator

/-! ## piece.hpp -/

/-- The enumeration `PieceType` of `piece.hpp`. -/
inductive PieceType where
  | ROOK
  | KNIGHT
  | BISHOP
  | QUEEN
  | KING
  | PAWN
  | NONE
deriving DecidableEq

/-- The struct `Piece`; the defaults are those of its constructor `Piece()`. -/
structure Piece where
  m_type : PieceType := PieceType.NONE
  m_color : Char := ' '
deriving DecidableEq

/-! ## results of partial computations -/

/-- Outcome of a computation that may leave the grid or exhaust its fuel. -/
inductive Res (α : Type) where
  | ok : α → Res α
  | outOfRange : Res α
  | outOfFuel : Res α
deriving DecidableEq

/-- Sequencing: a fault of the first computation is the fault of the whole. -/
def Res.bind {α β : Type} (r : Res α) (f : α → Res β) : Res β :=
  match r with
  | Res.ok a => f a
  | Res.outOfRange => Res.outOfRange
  | Res.outOfFuel => Res.outOfFuel

/-! ## chessBoard.cpp: state -/

/-- The data members `m_board` (indexed `m_board y x`) and `m_enPassantTarget`. -/
structure ChessBoard where
  m_board : Int → Int → Piece
  m_enPassantTarget : Int × Int

/-- Both coordinates index the 8x8 grid. -/
def onGrid (x y : Int) : Prop := 0 ≤ x ∧ x < 8 ∧ 0 ≤ y ∧ y < 8

instance (x y : Int) : Decidable (onGrid x y) := by
  unfold onGrid; infer_instance

/-- The rvalue `m_board[y][x]`. -/
def ChessBoard.read (b : ChessBoard) (x y : Int) : Res Piece :=
  if onGrid x y then Res.ok (b.m_board y x) else Res.outOfRange

/-- An assignment `m_board[y][x] = p` with indices known to be on the grid. -/
def ChessBoard.set (b : ChessBoard) (x y : Int) (p : Piece) : ChessBoard :=
  { b with m_board := fun y1 x1 => if y1 = y ∧ x1 = x then p else b.m_board y1 x1 }

/-- The assignment `m_board[y][x] = p` with computed indices. -/
def ChessBoard.write (b : ChessBoard) (x y : Int) (p : Piece) : Res ChessBoard :=
  if onGrid x y then Res.ok (b.set x y p) else Res.outOfRange

/-- The index range `0 .. 7` of the `for` loops. -/
def idx8 : List Int := [0, 1, 2, 3, 4, 5, 6, 7]

/-- The constructor `ChessBoard::ChessBoard`: 8x8 copies of `Piece()`, target `(-1, -1)`. -/
def ChessBoard.ctor : ChessBoard :=
  { m_board := fun _ _ => {}, m_enPassantTarget := (-1, -1) }

/-- The `abs` of `<cmath>` on `int`. -/
def iabs (a : Int) : Int := (Int.natAbs a : Int)

/-! ## setInitialPositions -/

/-- Body of the inner loop of `setInitialPositions` for one `(y, x)`. -/
def setInitialCell (b : ChessBoard) (y x : Int) : ChessBoard :=
  if y = 1 then b.set x y ⟨PieceType.PAWN, 'W'⟩
  else if y = 6 then b.set x y ⟨PieceType.PAWN, 'B'⟩
  else if y = 0 ∨ y = 7 then
    let color : Char := if y = 0 then 'W' else 'B'
    let b1 := if x = 0 ∨ x = 7 then b.set x y ⟨PieceType.ROOK, color⟩ else b
    let b2 := if x = 1 ∨ x = 6 then b1.set x y ⟨PieceType.KNIGHT, color⟩ else b1
    let b3 := if x = 2 ∨ x = 5 then b2.set x y ⟨PieceType.BISHOP, color⟩ else b2
    let b4 := if x = 3 then b3.set x y ⟨PieceType.QUEEN, color⟩ else b3
    if x = 4 then b4.set x y ⟨PieceType.KING, color⟩ else b4
  else b

/-- The method `setInitialPositions`: `y` outer, `x` inner, both over `0 .. 7`. -/
def setInitialPositions (b : ChessBoard) : ChessBoard :=
  idx8.foldl (fun by1 y => idx8.foldl (fun bx x => setInitialCell bx y x) by1) b

/-- The method `isPieceAt`. -/
def isPieceAt (b : ChessBoard) (x y : Int) : Res Bool :=
  (b.read x y).bind fun p => Res.ok (decide (p.m_type ≠ PieceType.NONE))

/-! ## isPathClear -/

/-- The step `d ? d / abs(d) : 0` (C++ division truncates). -/
def stepDir (d : Int) : Int := if d ≠ 0 then Int.tdiv d (iabs d) else 0

/-- The `while` loop of `isPathClear`, one iteration per unit of fuel. -/
def isPathClearLoop (b : ChessBoard) (xDir yDir endX endY : Int) : Nat → Int → Int → Res Bool
  | 0, _, _ => Res.outOfFuel
  | fuel + 1, x, y =>
    if x ≠ endX ∨ y ≠ endY then
      (b.read x y).bind fun p =>
        if p.m_type ≠ PieceType.NONE then Res.ok false
        else isPathClearLoop b xDir yDir endX endY fuel (x + xDir) (y + yDir)
    else Res.ok true

/-- The method `isPathClear`. -/
def isPathClear (fuel : Nat) (b : ChessBoard) (startX startY endX endY : Int) : Res Bool :=
  let xDir := stepDir (endX - startX)
  let yDir := stepDir (endY - startY)
  isPathClearLoop b xDir yDir endX endY fuel (startX + xDir) (startY + yDir)

/-! ## validatePawnMove -/

/-- The method `validatePawnMove`. -/
def validatePawnMove (b : ChessBoard) (pawn : Piece)
    (startX startY endX endY dx dy : Int) : Res Bool :=
  let direction : Int := if pawn.m_color = 'W' then 1 else -1
  -- `if(dx == 1 and dy == 1) { ... }  return false;`
  let diagonal : Res Bool :=
    if dx = 1 ∧ dy = 1 then
      (b.read endX endY).bind fun e =>
        if e.m_type ≠ PieceType.NONE then Res.ok (decide (e.m_color ≠ pawn.m_color))
        else if (endX, endY) = b.m_enPassantTarget then
          let capturedPawnY := endY - direction
          if 0 ≤ capturedPawnY ∧ capturedPawnY < 8 then
            (b.read endX capturedPawnY).bind fun c =>
              if c.m_type = PieceType.PAWN ∧ c.m_color ≠ pawn.m_color then Res.ok true
              else Res.ok false
          else Res.ok false
        else Res.ok false
    else Res.ok false
  -- `if(dy == 2 and (home rank)) return ...;`
  let twoStep : Res Bool :=
    if dy = 2 ∧ ((pawn.m_color = 'W' ∧ startY = 1) ∨ (pawn.m_color = 'B' ∧ startY = 6)) then
      (b.read startX (startY + direction)).bind fun m =>
        if m.m_type = PieceType.NONE then
          (b.read endX endY).bind fun e => Res.ok (decide (e.m_type = PieceType.NONE))
        else Res.ok false
    else diagonal
  if dx = 0 then
    if dy = 1 then
      (b.read endX endY).bind fun e =>
        if e.m_type = PieceType.NONE then Res.ok (decide (startY + direction = endY))
        else twoStep
    else twoStep
  else diagonal

/-! ## validateKingMove, isInCheck, isValidMove -/

/-- The method `validateKingMove`; `inCheck` is the callee `isInCheck`. -/
def validateKingMove (inCheck : Char → Res Bool) (fuel : Nat) (b : ChessBoard) (king : Piece)
    (startX startY endX _endY dx dy : Int) : Res Bool :=
  if dx ≤ 1 ∧ dy ≤ 1 then Res.ok true
  else if dx = 2 ∧ dy = 0 then
    (inCheck king.m_color).bind fun chk =>
      if !chk then
        let rookX : Int := if endX > startX then 7 else 0
        (b.read rookX startY).bind fun r =>
          if r.m_type = PieceType.ROOK ∧ r.m_color = king.m_color then
            isPathClear fuel b startX startY rookX startY
          else Res.ok false
      else Res.ok false
  else Res.ok false

/-- Inner loop of the king search of `isInCheck`; `k` is `(kingX, kingY)`. -/
def findKingRow (b : ChessBoard) (kingColor : Char) (y : Int) : List Int → Int × Int → Int × Int
  | [], k => k
  | x :: xs, k =>
    if (b.m_board y x).m_type = PieceType.KING ∧ (b.m_board y x).m_color = kingColor then (x, y)
    else findKingRow b kingColor y xs k

/-- Outer loop of the king search of `isInCheck`, with its `if(kingX != -1) break;`. -/
def findKingRows (b : ChessBoard) (kingColor : Char) : List Int → Int × Int → Int × Int
  | [], k => k
  | y :: ys, k =>
    let k1 := findKingRow b kingColor y idx8 k
    if k1.1 ≠ -1 then k1 else findKingRows b kingColor ys k1

/-- Inner loop of the attacker scan of `isInCheck`; `validMove` is the callee `isValidMove`. -/
def attackRow (validMove : Int → Int → Int → Int → Res Bool) (b : ChessBoard) (kingColor : Char)
    (kingX kingY y : Int) : List Int → Res Bool
  | [] => Res.ok false
  | x :: xs =>
    if (b.m_board y x).m_color ≠ kingColor ∧ (b.m_board y x).m_type ≠ PieceType.NONE then
      (validMove x y kingX kingY).bind fun hit =>
        if hit then Res.ok true else attackRow validMove b kingColor kingX kingY y xs
    else attackRow validMove b kingColor kingX kingY y xs

/-- Outer loop of the attacker scan of `isInCheck`. -/
def attackRows (validMove : Int → Int → Int → Int → Res Bool) (b : ChessBoard) (kingColor : Char)
    (kingX kingY : Int) : List Int → Res Bool
  | [] => Res.ok false
  | y :: ys =>
    (attackRow validMove b kingColor kingX kingY y idx8).bind fun hit =>
      if hit then Res.ok true else attackRows validMove b kingColor kingX kingY ys

/-- The body of `isInCheck` over the callee `validMove`. -/
def isInCheckBody (validMove : Int → Int → Int → Int → Res Bool) (b : ChessBoard)
    (kingColor : Char) : Res Bool :=
  let k := findKingRows b kingColor idx8 (-1, -1)
  if k.1 = -1 ∨ k.2 = -1 then Res.ok false
  else attackRows validMove b kingColor k.1 k.2 idx8

/-- The body of `isValidMove` over the callee `inCheck`. -/
def isValidMoveBody (inCheck : Char → Res Bool) (fuel : Nat) (b : ChessBoard)
    (startX startY endX endY : Int) : Res Bool :=
  if startX = endX ∧ startY = endY then Res.ok false
  else
    (b.read startX startY).bind fun piece =>
    (b.read endX endY).bind fun target =>
      if piece.m_color = target.m_color then Res.ok false
      else
        let dx := iabs (endX - startX)
        let dy := iabs (endY - startY)
        match piece.m_type with
        | PieceType.PAWN => validatePawnMove b piece startX startY endX endY dx dy
        | PieceType.ROOK =>
          if dx = 0 ∨ dy = 0 then isPathClear fuel b startX startY endX endY else Res.ok false
        | PieceType.KNIGHT => Res.ok (decide ((dx = 2 ∧ dy = 1) ∨ (dx = 1 ∧ dy = 2)))
        | PieceType.BISHOP =>
          if dx = dy then isPathClear fuel b startX startY endX endY else Res.ok false
        | PieceType.QUEEN =>
          if dx = dy ∨ dx = 0 ∨ dy = 0 then isPathClear fuel b startX startY endX endY
          else Res.ok false
        | PieceType.KING => validateKingMove inCheck fuel b piece startX startY endX endY dx dy
        | PieceType.NONE => Res.ok false

/-- The method `isValidMove`. Each nested call of `isInCheck` costs one unit of fuel. -/
def isValidMove : Nat → ChessBoard → Int → Int → Int → Int → Res Bool
  | fuel, b, startX, startY, endX, endY =>
    isValidMoveBody
      (match fuel with
       | 0 => fun _ => Res.outOfFuel
       | n + 1 => fun kingColor => isInCheckBody (isValidMove n b) b kingColor)
      fuel b startX startY endX endY

/-- The method `isInCheck`. -/
def isInCheck (fuel : Nat) (b : ChessBoard) (kingColor : Char) : Res Bool :=
  isInCheckBody (isValidMove fuel b) b kingColor

/-! ## movePiece -/

/-- Lines 288-323 of `movePiece`: the update of `m_board` and `m_enPassantTarget`. -/
def movePieceState (b : ChessBoard) (startX startY endX endY : Int) : Res ChessBoard :=
  (b.read startX startY).bind fun movingPiece =>
    let dx := iabs (endX - startX)
    let dy := iabs (endY - startY)
    let direction : Int := if movingPiece.m_color = 'W' then 1 else -1
    (if movingPiece.m_type = PieceType.PAWN ∧ dx = 1 ∧ dy = 1 then
        (b.read endX endY).bind fun e =>
          Res.ok (decide (e.m_type = PieceType.NONE ∧ (endX, endY) = b.m_enPassantTarget))
      else Res.ok false).bind fun enPassantCapture =>
    (b.write endX endY movingPiece).bind fun b1 =>
    (b1.write startX startY {}).bind fun b2 =>
    (if enPassantCapture then b2.write endX (endY - direction) {} else Res.ok b2).bind fun b3 =>
    Res.ok { b3 with
      m_enPassantTarget :=
        if movingPiece.m_type = PieceType.PAWN ∧ dy = 2 then (startX, startY + direction)
        else (-1, -1) }

/-- The method `movePiece`: the new state and the text handed to `updateCheckStatus`. -/
def movePiece (fuel : Nat) (b : ChessBoard) (startX startY endX endY : Int) :
    Res (ChessBoard × String) :=
  (movePieceState b startX startY endX endY).bind fun b1 =>
  (b1.read endX endY).bind fun moved =>
    let currentPlayerColor := moved.m_color
    let opponentColor : Char := if currentPlayerColor = 'W' then 'B' else 'W'
    (isInCheck fuel b1 opponentColor).bind fun chk =>
      Res.ok (b1, if chk then "King is check!" else "")

/-! ## toChess, toCoords, atBoard, castling -/

/-- The conversion `static_cast<char>(v)` of an `int`: the value modulo 256 as a character. -/
def toChar (v : Int) : Char := Char.ofNat (v % 256).toNat

/-- The method `toChess`: the two characters appended to the empty string. -/
def toChess (x y : Int) : String :=
  String.mk [toChar (97 + x), toChar (7 - y + 49)]

/-- The method `toCoords`; `'a'` is 97 and `'1'` is 49. -/
def toCoords (col row : Char) : Int × Int :=
  ((col.toNat : Int) - 97, 7 - ((row.toNat : Int) - 49))

/-- The method `atBoard`. -/
def atBoard (Start End : Int × Int) : Bool :=
  decide ((0 ≤ Start.1 ∧ Start.1 < 8) ∧ (0 ≤ Start.2 ∧ Start.2 < 8) ∧
    (0 ≤ End.1 ∧ End.1 < 8) ∧ (0 ≤ End.2 ∧ End.2 < 8))

/-- The pattern `pat` is an initial segment of the text. -/
def startsWith : List Char → List Char → Bool
  | [], _ => true
  | _ :: _, [] => false
  | p :: ps, c :: cs => p == c && startsWith ps cs

/-- The library call `std::string::find`: the index of the first occurrence of `pat`,
`none` standing for `npos` (the value the source compares with `-1`). -/
def stdFind (pat : List Char) : List Char → Option Nat
  | [] => if pat = [] then some 0 else none
  | c :: cs =>
    if startsWith pat (c :: cs) then some 0 else (stdFind pat cs).map fun i => i + 1

/-- The method `castling`: the returned flag and the final values of the reference
parameters `rookStart` and `rookEnd`. -/
def castling (str position : String) (rookStart rookEnd : Int × Int) :
    Bool × (Int × Int) × (Int × Int) :=
  let s0 : Bool × (Int × Int) × (Int × Int) := (false, rookStart, rookEnd)
  let s1 :=
    if str = "e1g1" then
      if stdFind ['e', '1'] position.data = none then
        (true, toCoords 'h' '1', toCoords 'f' '1')
      else s0
    else s0
  let s2 :=
    if str = "e8g8" then
      if stdFind ['e', '8'] position.data = none then
        (true, toCoords 'h' '8', toCoords 'f' '8')
      else s1
    else s1
  let s3 :=
    if str = "e1c1" then
      if stdFind ['e', '1'] position.data = none then
        (true, toCoords 'a' '1', toCoords 'd' '1')
      else s2
    else s2
  if str = "e8c8" then
    if stdFind ['e', '8'] position.data = none then
      (true, toCoords 'a' '8', toCoords 'd' '8')
    else s3
  else s3

/-! ## the layout and the geometry the properties speak about -/

/-- File order of a back rank: Rook, Knight, Bishop, Queen, King, Bishop, Knight, Rook. -/
def backRankType (x : Int) : PieceType :=
  if x = 0 ∨ x = 7 then PieceType.ROOK
  else if x = 1 ∨ x = 6 then PieceType.KNIGHT
  else if x = 2 ∨ x = 5 then PieceType.BISHOP
  else if x = 3 then PieceType.QUEEN
  else PieceType.KING

/-- The square `(x, y)` lies on the segment from `(sx, sy)` to `(ex, ey)` and is neither end. -/
def strictlyBetween (sx sy ex ey x y : Int) : Prop :=
  (x, y) ≠ (sx, sy) ∧ (x, y) ≠ (ex, ey) ∧
  min sx ex ≤ x ∧ x ≤ max sx ex ∧ min sy ey ≤ y ∧ y ≤ max sy ey ∧
  (x - sx) * (ey - sy) = (y - sy) * (ex - sx)

/-- Every square strictly between the two squares is empty. -/
def pathEmpty (b : ChessBoard) (sx sy ex ey : Int) : Prop :=
  ∀ x y : Int, strictlyBetween sx sy ex ey x y → (b.m_board y x).m_type = PieceType.NONE

/-- The `isInCheck` that `isValidMove fuel` calls: one unit of fuel less. -/
def nestedInCheck (fuel : Nat) (b : ChessBoard) : Char → Res Bool :=
  match fuel with
  | 0 => fun _ => Res.outOfFuel
  | n + 1 => fun kingColor => isInCheck n b kingColor

/-- Direction of a pawn of colour `c`: `+1` for `'W'`, `-1` otherwise (so `-1` for `'B'`). -/
def pawnDir (c : Char) : Int := if c = 'W' then 1 else -1

/-- The block `if(dx == 1 and dy == 1) { ... }` of `validatePawnMove` and the final
`return false`, with the reads on the grid already performed. -/
def pawnDiagonal (b : ChessBoard) (c : Char) (ex ey dx dy : Int) : Res Bool :=
  if dx = 1 ∧ dy = 1 then
    if (b.m_board ey ex).m_type ≠ PieceType.NONE then
      Res.ok (decide ((b.m_board ey ex).m_color ≠ c))
    else if (ex, ey) = b.m_enPassantTarget then
      if 0 ≤ ey - pawnDir c ∧ ey - pawnDir c < 8 then
        if (b.m_board (ey - pawnDir c) ex).m_type = PieceType.PAWN ∧
            (b.m_board (ey - pawnDir c) ex).m_color ≠ c then Res.ok true
        else Res.ok false
      else Res.ok false
    else Res.ok false
  else Res.ok false

/-- Exactly one of four propositions holds. -/
def exactlyOne4 (A B C D : Prop) : Prop :=
  (A ∧ ¬B ∧ ¬C ∧ ¬D) ∨ (¬A ∧ B ∧ ¬C ∧ ¬D) ∨ (¬A ∧ ¬B ∧ C ∧ ¬D) ∨ (¬A ∧ ¬B ∧ ¬C ∧ D)

/-- Fuel order on results: `r1` ran out of fuel, or it is already the answer `r2`. -/
def Res.le {α : Type} (r1 r2 : Res α) : Prop := r1 = Res.outOfFuel ∨ r1 = r2

/-- The move is an en-passant capture: a pawn moves one file and one rank onto an empty square
that is the current `m_enPassantTarget`. -/
def enPassantMove (b : ChessBoard) (sx sy ex ey : Int) : Prop :=
  (b.m_board sy sx).m_type = PieceType.PAWN ∧ iabs (ex - sx) = 1 ∧ iabs (ey - sy) = 1 ∧
    (b.m_board ey ex).m_type = PieceType.NONE ∧ (ex, ey) = b.m_enPassantTarget

instance (b : ChessBoard) (sx sy ex ey : Int) : Decidable (enPassantMove b sx sy ex ey) := by
  unfold enPassantMove; infer_instance

/-! ## concrete positions -/

/-- White king on `(4, 0)`, Black king on `(6, 0)`, nothing else. -/
def kingsOpposed : ChessBoard :=
  { m_board := fun y x =>
      if y = 0 ∧ x = 4 then ⟨PieceType.KING, 'W'⟩
      else if y = 0 ∧ x = 6 then ⟨PieceType.KING, 'B'⟩
      else {},
    m_enPassantTarget := (-1, -1) }

/-- The position `kingsOpposed` with a Black rook added on `(4, 5)`. -/
def kingsOpposedRook : ChessBoard :=
  { m_board := fun y x =>
      if y = 5 ∧ x = 4 then ⟨PieceType.ROOK, 'B'⟩ else kingsOpposed.m_board y x,
    m_enPassantTarget := (-1, -1) }

/-- White king on `(4, 3)`, White rook on `(7, 3)`, Black king on `(0, 7)`. -/
def castleOnRank3 : ChessBoard :=
  { m_board := fun y x =>
      if y = 3 ∧ x = 4 then ⟨PieceType.KING, 'W'⟩
      else if y = 3 ∧ x = 7 then ⟨PieceType.ROOK, 'W'⟩
      else if y = 7 ∧ x = 0 then ⟨PieceType.KING, 'B'⟩
      else {},
    m_enPassantTarget := (-1, -1) }

/-- White king on `(4, 0)`, White rook on `(7, 0)`, Black rook on `(4, 7)`, Black king on
`(0, 7)`: the White king is attacked along the e-file. -/
def kingAttacked : ChessBoard :=
  { m_board := fun y x =>
      if y = 0 ∧ x = 4 then ⟨PieceType.KING, 'W'⟩
      else if y = 0 ∧ x = 7 then ⟨PieceType.ROOK, 'W'⟩
      else if y = 7 ∧ x = 4 then ⟨PieceType.ROOK, 'B'⟩
      else if y = 7 ∧ x = 0 then ⟨PieceType.KING, 'B'⟩
      else {},
    m_enPassantTarget := (-1, -1) }

/-- White pawn on `(4, 4)`, next to it on `(3, 4)` a Black pawn that has just made its double
step from `(3, 6)`, so the target is `(3, 5)`; kings on `(4, 0)` and `(4, 7)`. -/
def enPassantReady : ChessBoard :=
  { m_board := fun y x =>
      if y = 4 ∧ x = 4 then ⟨PieceType.PAWN, 'W'⟩
      else if y = 4 ∧ x = 3 then ⟨PieceType.PAWN, 'B'⟩
      else if y = 0 ∧ x = 4 then ⟨PieceType.KING, 'W'⟩
      else if y = 7 ∧ x = 4 then ⟨PieceType.KING, 'B'⟩
      else {},
    m_enPassantTarget := (3, 5) }

/-- White pawn on `(4, 4)`, Black pawn on its home square `(3, 6)`, kings on `(4, 0)` and
`(4, 7)`, no en-passant target. -/
def enPassantStart : ChessBoard :=
  { m_board := fun y x =>
      if y = 4 ∧ x = 4 then ⟨PieceType.PAWN, 'W'⟩
      else if y = 6 ∧ x = 3 then ⟨PieceType.PAWN, 'B'⟩
      else if y = 0 ∧ x = 4 then ⟨PieceType.KING, 'W'⟩
      else if y = 7 ∧ x = 4 then ⟨PieceType.KING, 'B'⟩
      else {},
    m_enPassantTarget := (-1, -1) }

/-! ## further notions used by the properties -/

/-- The pattern occurs as a contiguous part of the text. -/
def occursIn (pat s : List Char) : Prop := ∃ pre suf : List Char, s = pre ++ pat ++ suf

/-- Exactly one square of the grid holds a King of colour `c`. -/
def exactlyOneKing (b : ChessBoard) (c : Char) : Prop :=
  ∃ kx ky : Int, onGrid kx ky ∧
    ∀ x y : Int, onGrid x y → (b.m_board y x = ⟨PieceType.KING, c⟩ ↔ (x = kx ∧ y = ky))

/-- The piece of the standard starting layout on `(x, y)` for `y` one of the ranks 0, 1, 6, 7. -/
def standardPiece (x y : Int) : Piece :=
  if y = 0 then ⟨backRankType x, 'W'⟩
  else if y = 1 then ⟨PieceType.PAWN, 'W'⟩
  else if y = 6 then ⟨PieceType.PAWN, 'B'⟩
  else ⟨backRankType x, 'B'⟩

/-- The rank is one of those that `setInitialPositions` writes. -/
def writtenRank (y : Int) : Prop := y = 0 ∨ y = 1 ∨ y = 6 ∨ y = 7

instance (y : Int) : Decidable (writtenRank y) := by
  unfold writtenRank; infer_instance

/-! ## further concrete positions -/

/-- The position `kingsOpposed` with a Black rook added on `(0, 5)`. -/
def rookBeforeCheck : ChessBoard :=
  { m_board := fun y x =>
      if y = 5 ∧ x = 0 then ⟨PieceType.ROOK, 'B'⟩ else kingsOpposed.m_board y x,
    m_enPassantTarget := (-1, -1) }

/-- The position `rookBeforeCheck` after the rook move `(0, 5) -> (4, 5)`. -/
def rookAfterCheck : ChessBoard :=
  { ((rookBeforeCheck.set 4 5 (rookBeforeCheck.m_board 5 0)).set 0 5 {}) with
    m_enPassantTarget := (-1, -1) }

/-- The position `kingAttacked` after the Black rook took the White king:
`(4, 7) -> (4, 0)`. -/
def kingTaken : ChessBoard :=
  { ((kingAttacked.set 4 0 (kingAttacked.m_board 7 4)).set 4 7 {}) with
    m_enPassantTarget := (-1, -1) }

/-- White pawns on `(4, 4)` and `(4, 6)`, Black pawns on `(3, 3)` and `(3, 4)`, target
`(3, 5)`, kings on `(7, 0)` and `(7, 7)`. -/
def pawnsFacing : ChessBoard :=
  { m_board := fun y x =>
      if y = 4 ∧ x = 4 then ⟨PieceType.PAWN, 'W'⟩
      else if y = 6 ∧ x = 4 then ⟨PieceType.PAWN, 'W'⟩
      else if y = 3 ∧ x = 3 then ⟨PieceType.PAWN, 'B'⟩
      else if y = 4 ∧ x = 3 then ⟨PieceType.PAWN, 'B'⟩
      else if y = 0 ∧ x = 7 then ⟨PieceType.KING, 'W'⟩
      else if y = 7 ∧ x = 7 then ⟨PieceType.KING, 'B'⟩
      else {},
    m_enPassantTarget := (3, 5) }

/-! ## basic lemmas -/

@[simp] theorem Res.ok_bind {α β : Type} (a : α) (f : α → Res β) :
    (Res.ok a).bind f = f a := rfl

@[simp] theorem Res.outOfRange_bind {α β : Type} (f : α → Res β) :
    (Res.outOfRange : Res α).bind f = Res.outOfRange := rfl

@[simp] theorem Res.outOfFuel_bind {α β : Type} (f : α → Res β) :
    (Res.outOfFuel : Res α).bind f = Res.outOfFuel := rfl

theorem read_onGrid (b : ChessBoard) {x y : Int} (h : onGrid x y) :
    b.read x y = Res.ok (b.m_board y x) := by
  simp [ChessBoard.read, h]

theorem write_onGrid (b : ChessBoard) {x y : Int} (p : Piece) (h : onGrid x y) :
    b.write x y p = Res.ok (b.set x y p) := by
  simp [ChessBoard.write, h]

/-! ## unfolding `isValidMove` -/

theorem isValidMove_eq (fuel : Nat) (b : ChessBoard) (sx sy ex ey : Int) :
    isValidMove fuel b sx sy ex ey
      = isValidMoveBody (nestedInCheck fuel b) fuel b sx sy ex ey := by
  cases fuel <;> rw [isValidMove] <;> rfl

/-- On the grid, past the two early returns, `isValidMove` is the `switch` on the piece. -/
theorem isValidMove_dispatch (fuel : Nat) (b : ChessBoard) (sx sy ex ey : Int)
    (hs : onGrid sx sy) (he : onGrid ex ey) (hne : ¬ (sx = ex ∧ sy = ey))
    (hcol : (b.m_board sy sx).m_color ≠ (b.m_board ey ex).m_color) :
    isValidMove fuel b sx sy ex ey =
      match (b.m_board sy sx).m_type with
      | PieceType.PAWN =>
        validatePawnMove b (b.m_board sy sx) sx sy ex ey (iabs (ex - sx)) (iabs (ey - sy))
      | PieceType.ROOK =>
        if iabs (ex - sx) = 0 ∨ iabs (ey - sy) = 0 then isPathClear fuel b sx sy ex ey
        else Res.ok false
      | PieceType.KNIGHT =>
        Res.ok (decide ((iabs (ex - sx) = 2 ∧ iabs (ey - sy) = 1) ∨
          (iabs (ex - sx) = 1 ∧ iabs (ey - sy) = 2)))
      | PieceType.BISHOP =>
        if iabs (ex - sx) = iabs (ey - sy) then isPathClear fuel b sx sy ex ey else Res.ok false
      | PieceType.QUEEN =>
        if iabs (ex - sx) = iabs (ey - sy) ∨ iabs (ex - sx) = 0 ∨ iabs (ey - sy) = 0 then
          isPathClear fuel b sx sy ex ey
        else Res.ok false
      | PieceType.KING =>
        validateKingMove (nestedInCheck fuel b) fuel b (b.m_board sy sx) sx sy ex ey
          (iabs (ex - sx)) (iabs (ey - sy))
      | PieceType.NONE => Res.ok false := by
  rw [isValidMove_eq]
  simp only [isValidMoveBody, if_neg hne, read_onGrid b hs, read_onGrid b he, Res.ok_bind,
    if_neg hcol]

/-! ## the loop of `isPathClear` -/

theorem stepDir_eq (d : Int) : stepDir d = if 0 < d then 1 else if d < 0 then -1 else 0 := by
  unfold stepDir iabs
  rcases lt_trichotomy d 0 with h | h | h
  · have h1 : ((Int.natAbs d : Nat) : Int) = -d := by omega
    have h2 : d ≠ 0 := by omega
    have h3 : ¬ 0 < d := by omega
    rw [if_pos h2, if_neg h3, if_pos h, h1, Int.tdiv_neg, Int.tdiv_self h2]
  · subst h; simp
  · have h1 : ((Int.natAbs d : Nat) : Int) = d := by omega
    have h2 : d ≠ 0 := by omega
    rw [if_pos h2, if_pos h, h1, Int.tdiv_self h2]

theorem loop_spec (b : ChessBoard) (xd yd : Int)
    (hxd : xd = -1 ∨ xd = 0 ∨ xd = 1) (hyd : yd = -1 ∨ yd = 0 ∨ yd = 1)
    (hdir : xd ≠ 0 ∨ yd ≠ 0) (sx sy : Int) (n : Nat)
    (hgrid : ∀ i : Nat, 1 ≤ i → i < n → onGrid (sx + i * xd) (sy + i * yd)) :
    ∀ (m j : Nat), j + m = n → 1 ≤ j → ∀ fuel : Nat, m + 1 ≤ fuel →
      ∃ v, isPathClearLoop b xd yd (sx + n * xd) (sy + n * yd) fuel (sx + j * xd) (sy + j * yd)
          = Res.ok v ∧
        (v = true ↔ ∀ i : Nat, j ≤ i → i < n →
          (b.m_board (sy + i * yd) (sx + i * xd)).m_type = PieceType.NONE) := by
  intro m
  induction m with
  | zero =>
    intro j hj _ fuel hf
    obtain ⟨f, rfl⟩ : ∃ f, fuel = f + 1 := ⟨fuel - 1, by omega⟩
    have hjn : j = n := by omega
    subst hjn
    refine ⟨true, ?_, ?_⟩
    · simp [isPathClearLoop]
    · simp; intro i h1 h2; omega
  | succ m ih =>
    intro j hj hj1 fuel hf
    obtain ⟨f, rfl⟩ : ∃ f, fuel = f + 1 := ⟨fuel - 1, by omega⟩
    have hlt : j < n := by omega
    have hcond : sx + (j : Int) * xd ≠ sx + (n : Int) * xd ∨
        sy + (j : Int) * yd ≠ sy + (n : Int) * yd := by
      have hjn : (j : Int) < (n : Int) := by exact_mod_cast hlt
      rcases hdir with h | h
      · left
        rcases hxd with h1 | h1 | h1
        · subst h1; omega
        · exact absurd h1 h
        · subst h1; omega
      · right
        rcases hyd with h1 | h1 | h1
        · subst h1; omega
        · exact absurd h1 h
        · subst h1; omega
    have hstep : isPathClearLoop b xd yd (sx + n * xd) (sy + n * yd) (f + 1)
        (sx + j * xd) (sy + j * yd) =
        if (b.m_board (sy + j * yd) (sx + j * xd)).m_type ≠ PieceType.NONE then Res.ok false
        else isPathClearLoop b xd yd (sx + n * xd) (sy + n * yd) f
          (sx + ((j + 1 : Nat) : Int) * xd) (sy + ((j + 1 : Nat) : Int) * yd) := by
      rw [isPathClearLoop, if_pos hcond, read_onGrid b (hgrid j hj1 hlt), Res.ok_bind]
      have e1 : sx + (j : Int) * xd + xd = sx + ((j + 1 : Nat) : Int) * xd := by
        push_cast; ring
      have e2 : sy + (j : Int) * yd + yd = sy + ((j + 1 : Nat) : Int) * yd := by
        push_cast; ring
      rw [e1, e2]
    by_cases hocc : (b.m_board (sy + j * yd) (sx + j * xd)).m_type ≠ PieceType.NONE
    · refine ⟨false, ?_, ?_⟩
      · rw [hstep, if_pos hocc]
      · constructor
        · intro h; exact absurd h (by decide)
        · intro h; exact absurd (h j (le_refl j) hlt) hocc
    · obtain ⟨v, hv, hiff⟩ := ih (j + 1) (by omega) (by omega) f (by omega)
      refine ⟨v, ?_, ?_⟩
      · rw [hstep, if_neg hocc]; exact hv
      · rw [hiff]
        constructor
        · intro h i hi hin
          by_cases hij : i = j
          · subst hij; exact not_not.mp hocc
          · exact h i (by omega) hin
        · intro h i hi hin
          exact h i (by omega) hin

theorem strictlyBetween_iff (xd yd : Int)
    (hxd : xd = -1 ∨ xd = 0 ∨ xd = 1) (hyd : yd = -1 ∨ yd = 0 ∨ yd = 1)
    (hdir : xd ≠ 0 ∨ yd ≠ 0) (sx sy : Int) (n : Nat) (x y : Int) :
    strictlyBetween sx sy (sx + n * xd) (sy + n * yd) x y ↔
      ∃ i : Nat, 1 ≤ i ∧ i < n ∧ x = sx + i * xd ∧ y = sy + i * yd := by
  unfold strictlyBetween
  simp only [ne_eq, Prod.mk.injEq]
  constructor
  · rintro ⟨h1, h2, h3, h4, h5, h6, h7⟩
    have hn : (n : Int) ≠ 0 := by
      intro h0
      rw [h0] at h2 h3 h4 h5 h6
      simp only [zero_mul, add_zero, min_self, max_self] at h3 h4 h5 h6
      exact h1 ⟨by omega, by omega⟩
    have key : (x - sx) * yd = (y - sy) * xd := by
      have h8 : (n : Int) * ((x - sx) * yd - (y - sy) * xd) = 0 := by
        linear_combination h7
      rcases mul_eq_zero.mp h8 with h9 | h9
      · exact absurd h9 hn
      · linarith
    refine ⟨max (x - sx).natAbs (y - sy).natAbs, ?_⟩
    rcases hxd with e | e | e <;> rcases hyd with e' | e' | e' <;> subst e <;> subst e' <;>
      simp only [mul_neg, mul_one, mul_zero, add_zero] at h2 h3 h4 h5 h6 key ⊢ <;>
      first
        | (exfalso; rcases hdir with h | h <;> exact h rfl)
        | omega
  · rintro ⟨i, hi1, hin, rfl, rfl⟩
    have hi : (i : Int) < (n : Int) := by exact_mod_cast hin
    have hi0 : (1 : Int) ≤ (i : Int) := by exact_mod_cast hi1
    refine ⟨?_, ?_, ?_, ?_, ?_, ?_, by ring⟩ <;>
    rcases hxd with e | e | e <;> rcases hyd with e' | e' | e' <;> subst e <;> subst e' <;>
      first
        | (exfalso; rcases hdir with h | h <;> exact h rfl)
        | omega

theorem isPathClear_ok (b : ChessBoard) (sx sy ex ey : Int)
    (hs : onGrid sx sy) (he : onGrid ex ey)
    (hal : sy = ey ∨ sx = ex ∨ iabs (ex - sx) = iabs (ey - sy))
    (fuel : Nat) (hf : 7 ≤ fuel) :
    ∃ v, isPathClear fuel b sx sy ex ey = Res.ok v ∧ (v = true ↔ pathEmpty b sx sy ex ey) := by
  have hs0 := hs
  have he0 := he
  obtain ⟨hs1, hs2, hs3, hs4⟩ := hs
  obtain ⟨he1, he2, he3, he4⟩ := he
  unfold iabs at hal
  by_cases hse : ex = sx ∧ ey = sy
  · obtain ⟨rfl, rfl⟩ := hse
    obtain ⟨f, rfl⟩ : ∃ f, fuel = f + 1 := ⟨fuel - 1, by omega⟩
    refine ⟨true, ?_, ?_⟩
    · simp [isPathClear, stepDir, isPathClearLoop]
    · simp only [true_iff]
      intro x y hb
      unfold strictlyBetween at hb
      simp only [ne_eq, Prod.mk.injEq, min_self, max_self] at hb
      exact absurd ⟨by omega, by omega⟩ hb.1
  · have hxd : stepDir (ex - sx) = -1 ∨ stepDir (ex - sx) = 0 ∨ stepDir (ex - sx) = 1 := by
      rw [stepDir_eq]; split_ifs <;> simp
    have hyd : stepDir (ey - sy) = -1 ∨ stepDir (ey - sy) = 0 ∨ stepDir (ey - sy) = 1 := by
      rw [stepDir_eq]; split_ifs <;> simp
    have hdir : stepDir (ex - sx) ≠ 0 ∨ stepDir (ey - sy) ≠ 0 := by
      rw [stepDir_eq, stepDir_eq]
      by_cases h : ex = sx
      · right; split_ifs <;> omega
      · left; split_ifs <;> omega
    obtain ⟨n, hn1, hn7, hex, hey⟩ : ∃ n : Nat, 1 ≤ n ∧ n ≤ 7 ∧
        ex = sx + n * stepDir (ex - sx) ∧ ey = sy + n * stepDir (ey - sy) := by
      refine ⟨max (ex - sx).natAbs (ey - sy).natAbs, by omega, by omega, ?_, ?_⟩ <;>
        rw [stepDir_eq] <;> split_ifs <;> omega
    unfold isPathClear pathEmpty
    simp only
    generalize stepDir (ex - sx) = xd at hxd hex hdir
    generalize stepDir (ey - sy) = yd at hyd hey hdir
    subst hex hey
    have hgrid : ∀ i : Nat, 1 ≤ i → i < n → onGrid (sx + i * xd) (sy + i * yd) := by
      intro i hi1 hin
      have hi : (i : Int) < (n : Int) := by exact_mod_cast hin
      have hi0 : (1 : Int) ≤ (i : Int) := by exact_mod_cast hi1
      unfold onGrid
      rcases hxd with e | e | e <;> rcases hyd with e' | e' | e' <;> subst e <;> subst e' <;>
        omega
    obtain ⟨v, hv, hiff⟩ := loop_spec b xd yd hxd hyd hdir sx sy n hgrid (n - 1) 1
      (by omega) (le_refl 1) fuel (by omega)
    refine ⟨v, ?_, ?_⟩
    · simpa using hv
    · rw [hiff]
      constructor
      · intro h x y hb
        obtain ⟨i, hi1, hin, rfl, rfl⟩ :=
          (strictlyBetween_iff xd yd hxd hyd hdir sx sy n x y).mp hb
        exact h i hi1 hin
      · intro h i hi1 hin
        exact h _ _ ((strictlyBetween_iff xd yd hxd hyd hdir sx sy n _ _).mpr
          ⟨i, hi1, hin, rfl, rfl⟩)

/-! ## fuel monotonicity -/

theorem Res.le_refl {α : Type} (r : Res α) : Res.le r r := Or.inr rfl

theorem Res.le_trans {α : Type} {r1 r2 r3 : Res α} (h1 : Res.le r1 r2) (h2 : Res.le r2 r3) :
    Res.le r1 r3 := by
  rcases h1 with h | h
  · exact Or.inl h
  · rw [h]; exact h2

theorem Res.le_ok {α : Type} {r1 r2 : Res α} {a : α} (h : Res.le r1 r2) (h1 : r1 = Res.ok a) :
    r2 = Res.ok a := by
  rcases h with h | h
  · rw [h] at h1; exact absurd h1 (by simp)
  · rw [← h]; exact h1

theorem Res.le_bind {α β : Type} {r1 r2 : Res α} {f1 f2 : α → Res β}
    (h : Res.le r1 r2) (hf : ∀ a, Res.le (f1 a) (f2 a)) : Res.le (r1.bind f1) (r2.bind f2) := by
  rcases h with h | h
  · left; rw [h]; rfl
  · rw [h]
    cases r2 with
    | ok a => exact hf a
    | outOfRange => exact Or.inr rfl
    | outOfFuel => exact Or.inr rfl

theorem Res.le_ite {α : Type} (P : Prop) [Decidable P] {a1 a2 b1 b2 : Res α}
    (ha : Res.le a1 a2) (hb : Res.le b1 b2) :
    Res.le (if P then a1 else b1) (if P then a2 else b2) := by
  split_ifs
  · exact ha
  · exact hb

theorem isPathClearLoop_le (b : ChessBoard) (xd yd ex ey : Int) :
    ∀ (n : Nat) (x y : Int),
      Res.le (isPathClearLoop b xd yd ex ey n x y) (isPathClearLoop b xd yd ex ey (n + 1) x y) := by
  intro n
  induction n with
  | zero => intro x y; left; rfl
  | succ n ih =>
    intro x y
    rw [isPathClearLoop, isPathClearLoop]
    refine Res.le_ite _ (Res.le_bind (Res.le_refl _) fun p => ?_) (Res.le_refl _)
    exact Res.le_ite _ (Res.le_refl _) (ih _ _)

theorem isPathClear_le (n : Nat) (b : ChessBoard) (sx sy ex ey : Int) :
    Res.le (isPathClear n b sx sy ex ey) (isPathClear (n + 1) b sx sy ex ey) :=
  isPathClearLoop_le b _ _ ex ey n _ _

theorem validateKingMove_le {ic1 ic2 : Char → Res Bool} (h : ∀ c, Res.le (ic1 c) (ic2 c))
    (n : Nat) (b : ChessBoard) (king : Piece) (sx sy ex ey dx dy : Int) :
    Res.le (validateKingMove ic1 n b king sx sy ex ey dx dy)
      (validateKingMove ic2 (n + 1) b king sx sy ex ey dx dy) := by
  unfold validateKingMove
  refine Res.le_ite _ (Res.le_refl _) (Res.le_ite _ (Res.le_bind (h _) fun chk => ?_)
    (Res.le_refl _))
  refine Res.le_ite _ (Res.le_bind (Res.le_refl _) fun r => ?_) (Res.le_refl _)
  exact Res.le_ite _ (isPathClear_le n b _ _ _ _) (Res.le_refl _)

theorem attackRow_le {vm1 vm2 : Int → Int → Int → Int → Res Bool}
    (h : ∀ x y kx ky, Res.le (vm1 x y kx ky) (vm2 x y kx ky))
    (b : ChessBoard) (c : Char) (kx ky y : Int) (xs : List Int) :
    Res.le (attackRow vm1 b c kx ky y xs) (attackRow vm2 b c kx ky y xs) := by
  induction xs with
  | nil => exact Res.le_refl _
  | cons x xs ih =>
    unfold attackRow
    refine Res.le_ite _ (Res.le_bind (h _ _ _ _) fun hit => ?_) ih
    exact Res.le_ite _ (Res.le_refl _) ih

theorem attackRows_le {vm1 vm2 : Int → Int → Int → Int → Res Bool}
    (h : ∀ x y kx ky, Res.le (vm1 x y kx ky) (vm2 x y kx ky))
    (b : ChessBoard) (c : Char) (kx ky : Int) (ys : List Int) :
    Res.le (attackRows vm1 b c kx ky ys) (attackRows vm2 b c kx ky ys) := by
  induction ys with
  | nil => exact Res.le_refl _
  | cons y ys ih =>
    unfold attackRows
    refine Res.le_bind (attackRow_le h b c kx ky y idx8) fun hit => ?_
    exact Res.le_ite _ (Res.le_refl _) ih

theorem isInCheckBody_le {vm1 vm2 : Int → Int → Int → Int → Res Bool}
    (h : ∀ x y kx ky, Res.le (vm1 x y kx ky) (vm2 x y kx ky)) (b : ChessBoard) (c : Char) :
    Res.le (isInCheckBody vm1 b c) (isInCheckBody vm2 b c) := by
  unfold isInCheckBody
  exact Res.le_ite _ (Res.le_refl _) (attackRows_le h b c _ _ idx8)

theorem isValidMoveBody_le {ic1 ic2 : Char → Res Bool} (h : ∀ c, Res.le (ic1 c) (ic2 c))
    (n : Nat) (b : ChessBoard) (sx sy ex ey : Int) :
    Res.le (isValidMoveBody ic1 n b sx sy ex ey) (isValidMoveBody ic2 (n + 1) b sx sy ex ey) := by
  unfold isValidMoveBody
  refine Res.le_ite _ (Res.le_refl _) (Res.le_bind (Res.le_refl _) fun p =>
    Res.le_bind (Res.le_refl _) fun t => Res.le_ite _ (Res.le_refl _) ?_)
  simp only
  cases p.m_type with
  | PAWN => exact Res.le_refl _
  | ROOK => exact Res.le_ite _ (isPathClear_le n b _ _ _ _) (Res.le_refl _)
  | KNIGHT => exact Res.le_refl _
  | BISHOP => exact Res.le_ite _ (isPathClear_le n b _ _ _ _) (Res.le_refl _)
  | QUEEN => exact Res.le_ite _ (isPathClear_le n b _ _ _ _) (Res.le_refl _)
  | KING => exact validateKingMove_le h n b p _ _ _ _ _ _
  | NONE => exact Res.le_refl _

theorem isValidMove_le (n : Nat) (b : ChessBoard) :
    ∀ sx sy ex ey : Int,
      Res.le (isValidMove n b sx sy ex ey) (isValidMove (n + 1) b sx sy ex ey) := by
  induction n with
  | zero =>
    intro sx sy ex ey
    rw [isValidMove_eq, isValidMove_eq]
    exact isValidMoveBody_le (fun c => Or.inl rfl) 0 b sx sy ex ey
  | succ n ih =>
    intro sx sy ex ey
    rw [isValidMove_eq, isValidMove_eq]
    exact isValidMoveBody_le (fun c => isInCheckBody_le ih b c) (n + 1) b sx sy ex ey

theorem isInCheck_le (n : Nat) (b : ChessBoard) (c : Char) :
    Res.le (isInCheck n b c) (isInCheck (n + 1) b c) :=
  isInCheckBody_le (isValidMove_le n b) b c

theorem isValidMove_mono {n m : Nat} (h : n ≤ m) (b : ChessBoard) (sx sy ex ey : Int) :
    Res.le (isValidMove n b sx sy ex ey) (isValidMove m b sx sy ex ey) := by
  induction m with
  | zero => have : n = 0 := by omega
            subst this; exact Res.le_refl _
  | succ m ih =>
    by_cases hm : n = m + 1
    · subst hm; exact Res.le_refl _
    · exact Res.le_trans (ih (by omega)) (isValidMove_le m b sx sy ex ey)

theorem isInCheck_mono {n m : Nat} (h : n ≤ m) (b : ChessBoard) (c : Char) :
    Res.le (isInCheck n b c) (isInCheck m b c) :=
  isInCheckBody_le (fun x y kx ky => isValidMove_mono h b x y kx ky) b c

theorem isPathClear_mono {n m : Nat} (h : n ≤ m) (b : ChessBoard) (sx sy ex ey : Int) :
    Res.le (isPathClear n b sx sy ex ey) (isPathClear m b sx sy ex ey) := by
  induction m with
  | zero => have : n = 0 := by omega
            subst this; exact Res.le_refl _
  | succ m ih =>
    by_cases hm : n = m + 1
    · subst hm; exact Res.le_refl _
    · exact Res.le_trans (ih (by omega)) (isPathClear_le m b sx sy ex ey)

/-! ## pawn moves in normal form -/

theorem validatePawnMove_eq (b : ChessBoard) (sx sy ex ey dx dy : Int)
    (hs : onGrid sx sy) (he : onGrid ex ey) (c : Char) :
    validatePawnMove b ⟨PieceType.PAWN, c⟩ sx sy ex ey dx dy =
      if dx = 0 then
        if dy = 1 ∧ (b.m_board ey ex).m_type = PieceType.NONE then
          Res.ok (decide (sy + pawnDir c = ey))
        else if dy = 2 ∧ ((c = 'W' ∧ sy = 1) ∨ (c = 'B' ∧ sy = 6)) then
          Res.ok (decide ((b.m_board (sy + pawnDir c) sx).m_type = PieceType.NONE ∧
            (b.m_board ey ex).m_type = PieceType.NONE))
        else pawnDiagonal b c ex ey dx dy
      else pawnDiagonal b c ex ey dx dy := by
  have hdiag : ∀ (P : Prop) [Decidable P], (if P then
      (b.read ex ey).bind fun e =>
        if e.m_type ≠ PieceType.NONE then Res.ok (decide (e.m_color ≠ c))
        else if (ex, ey) = b.m_enPassantTarget then
          if 0 ≤ ey - pawnDir c ∧ ey - pawnDir c < 8 then
            (b.read ex (ey - pawnDir c)).bind fun cp =>
              if cp.m_type = PieceType.PAWN ∧ cp.m_color ≠ c then Res.ok true
              else Res.ok false
          else Res.ok false
        else Res.ok false
      else Res.ok false) =
      if P then
        if (b.m_board ey ex).m_type ≠ PieceType.NONE then
          Res.ok (decide ((b.m_board ey ex).m_color ≠ c))
        else if (ex, ey) = b.m_enPassantTarget then
          if 0 ≤ ey - pawnDir c ∧ ey - pawnDir c < 8 then
            if (b.m_board (ey - pawnDir c) ex).m_type = PieceType.PAWN ∧
                (b.m_board (ey - pawnDir c) ex).m_color ≠ c then Res.ok true
            else Res.ok false
          else Res.ok false
        else Res.ok false
      else Res.ok false := by
    intro P _
    rw [read_onGrid b he, Res.ok_bind]
    by_cases hr : 0 ≤ ey - pawnDir c ∧ ey - pawnDir c < 8
    · rw [read_onGrid b (show onGrid ex (ey - pawnDir c) from ⟨he.1, he.2.1, hr.1, hr.2⟩),
        Res.ok_bind]
    · simp only [if_neg hr]
  unfold validatePawnMove pawnDiagonal
  simp only []
  rw [show (if c = 'W' then (1 : Int) else -1) = pawnDir c from rfl]
  rw [hdiag, read_onGrid b he]
  simp only [Res.ok_bind]
  by_cases h0 : dx = 0
  · simp only [if_pos h0]
    by_cases h2 : dy = 2 ∧ ((c = 'W' ∧ sy = 1) ∨ (c = 'B' ∧ sy = 6))
    · have hg : onGrid sx (sy + pawnDir c) := by
        have hW : pawnDir 'W' = 1 := by decide
        have hB : pawnDir 'B' = -1 := by decide
        obtain ⟨g1, g2, _, _⟩ := hs
        rcases h2.2 with ⟨hc, hy⟩ | ⟨hc, hy⟩
        · rw [hc, hy, hW]; exact ⟨g1, g2, by decide, by decide⟩
        · rw [hc, hy, hB]; exact ⟨g1, g2, by decide, by decide⟩
      have h1 : ¬ dy = 1 := by omega
      simp only [if_pos h2, if_neg h1, read_onGrid b hg, Res.ok_bind, false_and, if_false]
      by_cases hm : (b.m_board (sy + pawnDir c) sx).m_type = PieceType.NONE
      · simp [hm, h1]
      · simp [hm, h1]
    · simp only [if_neg h2]
      by_cases h1 : dy = 1
      · by_cases hE : (b.m_board ey ex).m_type = PieceType.NONE
        · simp [h1, hE]
        · simp [h1, hE]
      · simp [h1]
  · simp only [if_neg h0]

theorem exactlyOne4_iff_or {A B C D : Prop} (hAB : A → ¬B) (hAC : A → ¬C) (hAD : A → ¬D)
    (hBC : B → ¬C) (hBD : B → ¬D) (hCD : C → ¬D) :
    exactlyOne4 A B C D ↔ A ∨ B ∨ C ∨ D := by
  unfold exactlyOne4
  constructor
  · rintro (⟨h, _⟩ | ⟨_, h, _⟩ | ⟨_, _, h, _⟩ | ⟨_, _, _, h⟩)
    · exact Or.inl h
    · exact Or.inr (Or.inl h)
    · exact Or.inr (Or.inr (Or.inl h))
    · exact Or.inr (Or.inr (Or.inr h))
  · rintro (h | h | h | h)
    · exact Or.inl ⟨h, hAB h, hAC h, hAD h⟩
    · exact Or.inr (Or.inl ⟨fun a => hAB a h, h, hBC h, hBD h⟩)
    · exact Or.inr (Or.inr (Or.inl ⟨fun a => hAC a h, fun a => hBC a h, h, hCD h⟩))
    · exact Or.inr (Or.inr (Or.inr ⟨fun a => hAD a h, fun a => hBD a h, fun a => hCD a h, h⟩))

theorem pawnDir_cases (c : Char) : pawnDir c = 1 ∨ pawnDir c = -1 := by
  unfold pawnDir; split_ifs <;> simp

theorem pawn_or (b : ChessBoard) (sx sy ex ey : Int)
    (hs : onGrid sx sy) (he : onGrid ex ey)
    (c : Char) (hcol : (b.m_board ey ex).m_color ≠ c) :
    ∃ v, validatePawnMove b ⟨PieceType.PAWN, c⟩ sx sy ex ey (iabs (ex - sx)) (iabs (ey - sy))
        = Res.ok v ∧
      (v = true ↔
        (sx = ex ∧ (b.m_board ey ex).m_type = PieceType.NONE ∧ ey = sy + pawnDir c) ∨
        (sx = ex ∧ iabs (ey - sy) = 2 ∧ ((c = 'W' ∧ sy = 1) ∨ (c = 'B' ∧ sy = 6)) ∧
          (b.m_board (sy + pawnDir c) sx).m_type = PieceType.NONE ∧
          (b.m_board ey ex).m_type = PieceType.NONE) ∨
        (iabs (ex - sx) = 1 ∧ iabs (ey - sy) = 1 ∧
          (b.m_board ey ex).m_type ≠ PieceType.NONE) ∨
        (iabs (ex - sx) = 1 ∧ iabs (ey - sy) = 1 ∧
          (b.m_board ey ex).m_type = PieceType.NONE ∧ (ex, ey) = b.m_enPassantTarget ∧
          onGrid ex (ey - pawnDir c) ∧
          (b.m_board (ey - pawnDir c) ex).m_type = PieceType.PAWN ∧
          (b.m_board (ey - pawnDir c) ex).m_color ≠ c)) := by
  have hd := pawnDir_cases c
  rw [validatePawnMove_eq b sx sy ex ey _ _ hs he c]
  by_cases h0 : iabs (ex - sx) = 0
  · have hx : sx = ex := by unfold iabs at h0; omega
    have hx1 : ¬ iabs (ex - sx) = 1 := by omega
    have hC : ∀ Q : Prop, ¬ (iabs (ex - sx) = 1 ∧ Q) := fun Q h => hx1 h.1
    rw [if_pos h0]
    by_cases h1 : iabs (ey - sy) = 1 ∧ (b.m_board ey ex).m_type = PieceType.NONE
    · rw [if_pos h1]
      refine ⟨_, rfl, ?_⟩
      have h2 : ¬ iabs (ey - sy) = 2 := by omega
      have hB : ∀ Q : Prop, ¬ (sx = ex ∧ iabs (ey - sy) = 2 ∧ Q) := fun Q h => h2 h.2.1
      simp only [decide_eq_true_eq, hC, hB, or_false, false_or]
      constructor
      · intro h; exact ⟨hx, h1.2, by omega⟩
      · intro h; omega
    · rw [if_neg h1]
      have hA : ¬ (sx = ex ∧ (b.m_board ey ex).m_type = PieceType.NONE ∧
          ey = sy + pawnDir c) := by
        rintro ⟨_, h4, h5⟩
        exact h1 ⟨by unfold iabs; omega, h4⟩
      by_cases h2 : iabs (ey - sy) = 2 ∧ ((c = 'W' ∧ sy = 1) ∨ (c = 'B' ∧ sy = 6))
      · rw [if_pos h2]
        refine ⟨_, rfl, ?_⟩
        simp only [decide_eq_true_eq, hC, hA, or_false, false_or]
        constructor
        · intro h; exact ⟨hx, h2.1, h2.2, h.1, h.2⟩
        · intro h; exact ⟨h.2.2.2.1, h.2.2.2.2⟩
      · rw [if_neg h2]
        refine ⟨false, by simp [pawnDiagonal, hx1], ?_⟩
        simp only [hC, hA, or_false, false_or]
        constructor
        · intro h; exact absurd h (by decide)
        · rintro ⟨_, h4, h5, _⟩; exact absurd ⟨h4, h5⟩ h2
  · rw [if_neg h0]
    have hx : ¬ sx = ex := by unfold iabs at h0; omega
    have hA : ∀ Q : Prop, ¬ (sx = ex ∧ Q) := fun Q h => hx h.1
    simp only [hA, false_or]
    unfold pawnDiagonal
    by_cases h11 : iabs (ex - sx) = 1 ∧ iabs (ey - sy) = 1
    · rw [if_pos h11]
      by_cases hE : (b.m_board ey ex).m_type = PieceType.NONE
      · rw [if_neg (not_not.mpr hE)]
        have hC : ¬ (iabs (ex - sx) = 1 ∧ iabs (ey - sy) = 1 ∧
            (b.m_board ey ex).m_type ≠ PieceType.NONE) := fun h => h.2.2 hE
        simp only [hC, false_or]
        by_cases hep : (ex, ey) = b.m_enPassantTarget
        · rw [if_pos hep]
          by_cases hr : 0 ≤ ey - pawnDir c ∧ ey - pawnDir c < 8
          · rw [if_pos hr]
            have hg : onGrid ex (ey - pawnDir c) := ⟨he.1, he.2.1, hr.1, hr.2⟩
            by_cases hp : (b.m_board (ey - pawnDir c) ex).m_type = PieceType.PAWN ∧
                (b.m_board (ey - pawnDir c) ex).m_color ≠ c
            · rw [if_pos hp]
              exact ⟨_, rfl, fun _ => ⟨h11.1, h11.2, hE, hep, hg, hp.1, hp.2⟩, fun _ => rfl⟩
            · rw [if_neg hp]
              refine ⟨_, rfl, fun h => absurd h (by decide), fun h => ?_⟩
              exact absurd ⟨h.2.2.2.2.2.1, h.2.2.2.2.2.2⟩ hp
          · rw [if_neg hr]
            refine ⟨_, rfl, fun h => absurd h (by decide), fun h => ?_⟩
            exact absurd ⟨h.2.2.2.2.1.2.2.1, h.2.2.2.2.1.2.2.2⟩ hr
        · rw [if_neg hep]
          refine ⟨_, rfl, fun h => absurd h (by decide), fun h => ?_⟩
          exact absurd h.2.2.2.1 hep
      · rw [if_pos hE]
        have hD : ∀ Q : Prop, ¬ (iabs (ex - sx) = 1 ∧ iabs (ey - sy) = 1 ∧
            (b.m_board ey ex).m_type = PieceType.NONE ∧ Q) := fun Q h => hE h.2.2.1
        refine ⟨_, rfl, ?_⟩
        simp only [hD, or_false, decide_eq_true_eq]
        exact ⟨fun _ => ⟨h11.1, h11.2, hE⟩, fun _ => hcol⟩
    · rw [if_neg h11]
      refine ⟨_, rfl, fun h => absurd h (by decide), fun h => ?_⟩
      rcases h with h | h
      · exact absurd ⟨h.1, h.2.1⟩ h11
      · exact absurd ⟨h.1, h.2.1⟩ h11

theorem slider_ok (b : ChessBoard) (sx sy ex ey : Int) (hs : onGrid sx sy) (he : onGrid ex ey)
    (fuel : Nat) (hf : 7 ≤ fuel) (geom : Prop) [Decidable geom]
    (hal : geom → sy = ey ∨ sx = ex ∨ iabs (ex - sx) = iabs (ey - sy)) :
    ∃ v, (if geom then isPathClear fuel b sx sy ex ey else Res.ok false) = Res.ok v ∧
      (v = true ↔ geom ∧ pathEmpty b sx sy ex ey) := by
  by_cases hg : geom
  · obtain ⟨v, hv, hiff⟩ := isPathClear_ok b sx sy ex ey hs he (hal hg) fuel hf
    exact ⟨v, by rw [if_pos hg, hv], by rw [hiff]; simp [hg]⟩
  · exact ⟨false, by rw [if_neg hg], by simp [hg]⟩

theorem iabs_sub_ne_one {sx ex : Int} (h : sx = ex) : ¬ iabs (ex - sx) = 1 := by
  unfold iabs; omega

theorem pawn_step_ne_two {sy ey d : Int} (hd : d = 1 ∨ d = -1) (h : ey = sy + d) :
    ¬ iabs (ey - sy) = 2 := by
  unfold iabs; omega

/-! ## early returns, castling, move application -/

theorem isValidMove_same_color (fuel : Nat) (b : ChessBoard) (sx sy ex ey : Int)
    (hs : onGrid sx sy) (he : onGrid ex ey)
    (hcol : (b.m_board sy sx).m_color = (b.m_board ey ex).m_color) :
    isValidMove fuel b sx sy ex ey = Res.ok false := by
  rw [isValidMove_eq]
  by_cases hne : sx = ex ∧ sy = ey
  · simp only [isValidMoveBody, if_pos hne]
  · simp only [isValidMoveBody, if_neg hne, read_onGrid b hs, read_onGrid b he,
      Res.ok_bind, if_pos hcol]

theorem validateKingMove_castle (ic : Char → Res Bool) (fuel : Nat) (b : ChessBoard)
    (king : Piece) (sx sy ex ey dx dy : Int) (hdx : dx = 2) (hdy : dy = 0) :
    validateKingMove ic fuel b king sx sy ex ey dx dy =
      (ic king.m_color).bind fun chk =>
        if !chk then
          (b.read (if ex > sx then 7 else 0) sy).bind fun r =>
            if r.m_type = PieceType.ROOK ∧ r.m_color = king.m_color then
              isPathClear fuel b sx sy (if ex > sx then 7 else 0) sy
            else Res.ok false
        else Res.ok false := by
  subst hdx hdy
  simp [validateKingMove]

theorem isValidMove_castle (fuel : Nat) (b : ChessBoard) (sx sy ex ey : Int)
    (hs : onGrid sx sy) (he : onGrid ex ey) (c : Char)
    (hk : b.m_board sy sx = ⟨PieceType.KING, c⟩)
    (hdx : iabs (ex - sx) = 2) (hdy : iabs (ey - sy) = 0)
    (hcol : (b.m_board sy sx).m_color ≠ (b.m_board ey ex).m_color) :
    isValidMove fuel b sx sy ex ey =
      (nestedInCheck fuel b c).bind fun chk =>
        if !chk then
          (b.read (if ex > sx then 7 else 0) sy).bind fun r =>
            if r.m_type = PieceType.ROOK ∧ r.m_color = c then
              isPathClear fuel b sx sy (if ex > sx then 7 else 0) sy
            else Res.ok false
        else Res.ok false := by
  have hne : ¬ (sx = ex ∧ sy = ey) := by
    rintro ⟨h, _⟩; unfold iabs at hdx; omega
  rw [isValidMove_dispatch fuel b sx sy ex ey hs he hne hcol, hk]
  exact validateKingMove_castle _ fuel b _ sx sy ex ey _ _ hdx hdy

theorem rook_corner_onGrid {sx sy : Int} (ex : Int) (hs : onGrid sx sy) :
    onGrid (if ex > sx then 7 else 0) sy := by
  obtain ⟨_, _, h3, h4⟩ := hs
  split_ifs
  · exact ⟨by decide, by decide, h3, h4⟩
  · exact ⟨by decide, by decide, h3, h4⟩

theorem movePieceState_plain (b : ChessBoard) (sx sy ex ey : Int)
    (hs : onGrid sx sy) (he : onGrid ex ey) (hep : ¬ enPassantMove b sx sy ex ey) :
    movePieceState b sx sy ex ey = Res.ok
      { ((b.set ex ey (b.m_board sy sx)).set sx sy {}) with
        m_enPassantTarget :=
          if (b.m_board sy sx).m_type = PieceType.PAWN ∧ iabs (ey - sy) = 2 then
            (sx, sy + pawnDir (b.m_board sy sx).m_color)
          else (-1, -1) } := by
  unfold movePieceState
  rw [read_onGrid b hs, Res.ok_bind]
  simp only [read_onGrid b he, Res.ok_bind, write_onGrid _ _ he, write_onGrid _ _ hs]
  by_cases h1 : (b.m_board sy sx).m_type = PieceType.PAWN ∧ iabs (ex - sx) = 1 ∧
      iabs (ey - sy) = 1
  · have h2 : ¬ ((b.m_board ey ex).m_type = PieceType.NONE ∧ (ex, ey) = b.m_enPassantTarget) :=
      fun h => hep ⟨h1.1, h1.2.1, h1.2.2, h.1, h.2⟩
    rw [if_pos h1]
    simp only [Res.ok_bind, h2, decide_False, Bool.false_eq_true, if_false]
    rfl
  · rw [if_neg h1]
    simp only [Res.ok_bind, Bool.false_eq_true, if_false]
    rfl

theorem movePieceState_enPassant (b : ChessBoard) (sx sy ex ey : Int)
    (hs : onGrid sx sy) (he : onGrid ex ey) (hep : enPassantMove b sx sy ex ey)
    (hg : onGrid ex (ey - pawnDir (b.m_board sy sx).m_color)) :
    movePieceState b sx sy ex ey = Res.ok
      { (((b.set ex ey (b.m_board sy sx)).set sx sy {}).set ex
          (ey - pawnDir (b.m_board sy sx).m_color) {}) with
        m_enPassantTarget :=
          if (b.m_board sy sx).m_type = PieceType.PAWN ∧ iabs (ey - sy) = 2 then
            (sx, sy + pawnDir (b.m_board sy sx).m_color)
          else (-1, -1) } := by
  unfold movePieceState
  rw [read_onGrid b hs, Res.ok_bind]
  simp only [read_onGrid b he, Res.ok_bind, write_onGrid _ _ he, write_onGrid _ _ hs]
  have h1 : (b.m_board sy sx).m_type = PieceType.PAWN ∧ iabs (ex - sx) = 1 ∧
      iabs (ey - sy) = 1 := ⟨hep.1, hep.2.1, hep.2.2.1⟩
  have h2 : (b.m_board ey ex).m_type = PieceType.NONE ∧ (ex, ey) = b.m_enPassantTarget :=
    ⟨hep.2.2.2.1, hep.2.2.2.2⟩
  rw [if_pos h1]
  simp only [Res.ok_bind, h2, and_self, decide_True, if_true]
  rw [show (if (b.m_board sy sx).m_color = 'W' then (1 : Int) else -1)
    = pawnDir (b.m_board sy sx).m_color from rfl, write_onGrid _ _ hg, Res.ok_bind]

theorem isValidMove_colors_differ (fuel : Nat) (b : ChessBoard) (sx sy ex ey : Int)
    (hs : onGrid sx sy) (he : onGrid ex ey)
    (hv : isValidMove fuel b sx sy ex ey = Res.ok true) :
    ¬ (sx = ex ∧ sy = ey) ∧ (b.m_board sy sx).m_color ≠ (b.m_board ey ex).m_color := by
  constructor
  · intro hne
    rw [isValidMove_eq] at hv
    simp only [isValidMoveBody, if_pos hne] at hv
    exact absurd hv (by decide)
  · intro h
    rw [isValidMove_same_color fuel b sx sy ex ey hs he h] at hv
    exact absurd hv (by decide)

theorem accepted_enPassant (fuel : Nat) (b : ChessBoard) (sx sy ex ey : Int)
    (hs : onGrid sx sy) (he : onGrid ex ey)
    (hv : isValidMove fuel b sx sy ex ey = Res.ok true)
    (hep : enPassantMove b sx sy ex ey) :
    onGrid ex (ey - pawnDir (b.m_board sy sx).m_color) ∧
    (b.m_board (ey - pawnDir (b.m_board sy sx).m_color) ex).m_type = PieceType.PAWN ∧
    (b.m_board (ey - pawnDir (b.m_board sy sx).m_color) ex).m_color
      ≠ (b.m_board sy sx).m_color := by
  obtain ⟨hne, hcol⟩ := isValidMove_colors_differ fuel b sx sy ex ey hs he hv
  obtain ⟨hP, hdx, hdy, hE, htgt⟩ := hep
  have hp : b.m_board sy sx = ⟨PieceType.PAWN, (b.m_board sy sx).m_color⟩ := by
    cases hcell : b.m_board sy sx with
    | mk t col => rw [hcell] at hP; simp only at hP; rw [hP]
  rw [isValidMove_dispatch fuel b sx sy ex ey hs he hne hcol, hP] at hv
  simp only at hv
  rw [hp] at hv
  obtain ⟨v, hv2, hiff⟩ := pawn_or b sx sy ex ey hs he (b.m_board sy sx).m_color
    (fun h => hcol h.symm)
  rw [hv] at hv2
  have hvt : v = true := by injection hv2 with h; exact h.symm
  rcases hiff.mp hvt with h | h | h | h
  · exact absurd hdx (iabs_sub_ne_one h.1)
  · exact absurd hdx (iabs_sub_ne_one h.1)
  · exact absurd hE h.2.2
  · exact ⟨h.2.2.2.2.1, h.2.2.2.2.2.1, h.2.2.2.2.2.2⟩

theorem movePiece_state (b b2 : ChessBoard) (sx sy ex ey : Int)
    (h : movePieceState b sx sy ex ey = Res.ok b2) (f : Nat) (r : ChessBoard × String)
    (hr : movePiece f b sx sy ex ey = Res.ok r) : r.1 = b2 := by
  unfold movePiece at hr
  rw [h, Res.ok_bind] at hr
  cases h1 : b2.read ex ey with
  | outOfRange => rw [h1] at hr; exact absurd hr (by simp [Res.bind])
  | outOfFuel => rw [h1] at hr; exact absurd hr (by simp [Res.bind])
  | ok moved =>
    rw [h1, Res.ok_bind] at hr
    simp only at hr
    cases h2 : isInCheck f b2 (if moved.m_color = 'W' then 'B' else 'W') with
    | outOfRange => rw [h2] at hr; exact absurd hr (by simp [Res.bind])
    | outOfFuel => rw [h2] at hr; exact absurd hr (by simp [Res.bind])
    | ok chk =>
      rw [h2, Res.ok_bind] at hr
      injection hr with hr
      rw [← hr]

/-! ## the two kings two files apart -/

theorem opposed_check_W (b : ChessBoard) (h0 : ∀ x, b.m_board 0 x = kingsOpposed.m_board 0 x)
    (vm : Int → Int → Int → Int → Res Bool) (h : vm 6 0 4 0 = Res.outOfFuel) :
    isInCheckBody vm b 'W' = Res.outOfFuel := by
  simp [isInCheckBody, findKingRows, findKingRow, attackRows, attackRow, idx8, h0,
    kingsOpposed, h]

theorem opposed_check_B (b : ChessBoard) (h0 : ∀ x, b.m_board 0 x = kingsOpposed.m_board 0 x)
    (vm : Int → Int → Int → Int → Res Bool) (h : vm 4 0 6 0 = Res.outOfFuel) :
    isInCheckBody vm b 'B' = Res.outOfFuel := by
  simp [isInCheckBody, findKingRows, findKingRow, attackRows, attackRow, idx8, h0,
    kingsOpposed, h]

theorem opposed_move_W (b : ChessBoard) (h0 : ∀ x, b.m_board 0 x = kingsOpposed.m_board 0 x)
    (ic : Char → Res Bool) (n : Nat) (h : ic 'W' = Res.outOfFuel) :
    isValidMoveBody ic n b 4 0 6 0 = Res.outOfFuel := by
  simp [isValidMoveBody, ChessBoard.read, onGrid, h0, kingsOpposed, validateKingMove, iabs, h]

theorem opposed_move_B (b : ChessBoard) (h0 : ∀ x, b.m_board 0 x = kingsOpposed.m_board 0 x)
    (ic : Char → Res Bool) (n : Nat) (h : ic 'B' = Res.outOfFuel) :
    isValidMoveBody ic n b 6 0 4 0 = Res.outOfFuel := by
  simp [isValidMoveBody, ChessBoard.read, onGrid, h0, kingsOpposed, validateKingMove, iabs, h]

theorem opposed_diverges (b : ChessBoard)
    (h0 : ∀ x, b.m_board 0 x = kingsOpposed.m_board 0 x) (fuel : Nat) :
    isValidMove fuel b 4 0 6 0 = Res.outOfFuel ∧
    isValidMove fuel b 6 0 4 0 = Res.outOfFuel := by
  induction fuel with
  | zero =>
    rw [isValidMove_eq, isValidMove_eq]
    exact ⟨opposed_move_W b h0 _ 0 rfl, opposed_move_B b h0 _ 0 rfl⟩
  | succ n ih =>
    rw [isValidMove_eq, isValidMove_eq]
    exact ⟨opposed_move_W b h0 _ _ (opposed_check_W b h0 _ ih.2),
      opposed_move_B b h0 _ _ (opposed_check_B b h0 _ ih.1)⟩

theorem kingsOpposedRook_row0 (x : Int) :
    kingsOpposedRook.m_board 0 x = kingsOpposed.m_board 0 x := by
  simp [kingsOpposedRook]

/-! ## accepted pawn moves and the state after a move -/

theorem piece_eta {p : Piece} {t : PieceType} (h : p.m_type = t) : p = ⟨t, p.m_color⟩ := by
  cases p with
  | mk t1 c1 => simp only at h; rw [h]

theorem iabs_two_ne_one {a : Int} (h : iabs a = 2) : ¬ iabs a = 1 := by
  rw [h]; decide

theorem double_step_target {sy ey d : Int}
    (hy : 0 ≤ ey ∧ ey < 8) (h2 : iabs (ey - sy) = 2)
    (hhome : (d = 1 ∧ sy = 1) ∨ (d = -1 ∧ sy = 6)) : ey = sy + 2 * d := by
  unfold iabs at h2; omega

theorem accepted_double_step (fuel : Nat) (b : ChessBoard) (sx sy ex ey : Int)
    (hs : onGrid sx sy) (he : onGrid ex ey)
    (hv : isValidMove fuel b sx sy ex ey = Res.ok true)
    (hP : (b.m_board sy sx).m_type = PieceType.PAWN) (h2 : iabs (ey - sy) = 2) :
    sx = ex ∧ ey = sy + 2 * pawnDir (b.m_board sy sx).m_color ∧
    (((b.m_board sy sx).m_color = 'W' ∧ sy = 1) ∨ ((b.m_board sy sx).m_color = 'B' ∧ sy = 6)) ∧
    (b.m_board (sy + pawnDir (b.m_board sy sx).m_color) sx).m_type = PieceType.NONE ∧
    (b.m_board ey ex).m_type = PieceType.NONE := by
  obtain ⟨hne, hcol⟩ := isValidMove_colors_differ fuel b sx sy ex ey hs he hv
  have hd := pawnDir_cases (b.m_board sy sx).m_color
  rw [isValidMove_dispatch fuel b sx sy ex ey hs he hne hcol, hP] at hv
  rw [piece_eta hP] at hv
  obtain ⟨v, hv2, hiff⟩ := pawn_or b sx sy ex ey hs he (b.m_board sy sx).m_color
    (fun h => hcol h.symm)
  simp only at hv
  rw [hv] at hv2
  have hvt : v = true := by injection hv2 with h; exact h.symm
  rcases hiff.mp hvt with h | h | h | h
  · exact absurd h2 (pawn_step_ne_two hd h.2.2)
  · refine ⟨h.1, ?_, h.2.2.1, h.2.2.2.1, h.2.2.2.2⟩
    have hW : pawnDir 'W' = 1 := by decide
    have hB : pawnDir 'B' = -1 := by decide
    refine double_step_target ⟨he.2.2.1, he.2.2.2⟩ h2 ?_
    rcases h.2.2.1 with ⟨hc, hy⟩ | ⟨hc, hy⟩
    · left; rw [hc]; exact ⟨hW, hy⟩
    · right; rw [hc]; exact ⟨hB, hy⟩
  · exact absurd h.2.1 (iabs_two_ne_one h2)
  · exact absurd h.2.1 (iabs_two_ne_one h2)

/-- The state that `movePieceState` produces on an accepted move. -/
theorem movePieceState_accepted (fuel : Nat) (b : ChessBoard) (sx sy ex ey : Int)
    (hs : onGrid sx sy) (he : onGrid ex ey)
    (hv : isValidMove fuel b sx sy ex ey = Res.ok true) :
    ∃ b2 : ChessBoard, movePieceState b sx sy ex ey = Res.ok b2 ∧
      b2.m_enPassantTarget =
        (if (b.m_board sy sx).m_type = PieceType.PAWN ∧ iabs (ey - sy) = 2 then
          (sx, sy + pawnDir (b.m_board sy sx).m_color)
        else (-1, -1)) ∧
      ∀ x y : Int, b2.m_board y x =
        if y = ey - pawnDir (b.m_board sy sx).m_color ∧ x = ex ∧ enPassantMove b sx sy ex ey
          then {}
        else if y = sy ∧ x = sx then {}
        else if y = ey ∧ x = ex then b.m_board sy sx
        else b.m_board y x := by
  by_cases hep : enPassantMove b sx sy ex ey
  · obtain ⟨hg, _, _⟩ := accepted_enPassant fuel b sx sy ex ey hs he hv hep
    refine ⟨_, movePieceState_enPassant b sx sy ex ey hs he hep hg, rfl, ?_⟩
    intro x y
    simp only [ChessBoard.set, hep, and_true]
  · refine ⟨_, movePieceState_plain b sx sy ex ey hs he hep, rfl, ?_⟩
    intro x y
    simp only [ChessBoard.set, hep, and_false, if_false]

theorem skipped_square_between {sx sy d : Int} (hd : d = 1 ∨ d = -1) (x y : Int) :
    strictlyBetween sx sy sx (sy + 2 * d) x y ↔ (x, y) = (sx, sy + d) := by
  unfold strictlyBetween
  simp only [ne_eq, Prod.mk.injEq, min_self, max_self, sub_self, mul_zero]
  constructor
  · rintro ⟨h1, h2, h3, h4, h5, h6, h7⟩
    rcases hd with e | e <;> subst e <;> omega
  · rintro ⟨rfl, rfl⟩
    refine ⟨?_, ?_, le_refl _, le_refl _, ?_, ?_, ?_⟩ <;>
      rcases hd with e | e <;> subst e <;> omega

theorem iabs_adjacent {g f : Int} (h : g = f - 1 ∨ g = f + 1) : iabs (f - g) = 1 := by
  unfold iabs; omega

theorem adjacent_ne {g f : Int} (h : g = f - 1 ∨ g = f + 1) : g ≠ f := by
  omega

/-! ## movePiece after its state update; the rook position -/

theorem movePiece_eq (f : Nat) (b b2 : ChessBoard) (sx sy ex ey : Int)
    (h : movePieceState b sx sy ex ey = Res.ok b2) (he : onGrid ex ey) :
    movePiece f b sx sy ex ey =
      (isInCheck f b2 (if (b2.m_board ey ex).m_color = 'W' then 'B' else 'W')).bind fun chk =>
        Res.ok (b2, if chk then "King is check!" else "") := by
  unfold movePiece
  rw [h, Res.ok_bind, read_onGrid b2 he, Res.ok_bind]

theorem rookBeforeCheck_move :
    movePieceState rookBeforeCheck 0 5 4 5 = Res.ok rookAfterCheck := by
  rw [movePieceState_plain rookBeforeCheck 0 5 4 5 (by decide) (by decide)
    (fun h => absurd h.1 (by decide))]
  rfl

theorem rookAfterCheck_row0 (x : Int) :
    rookAfterCheck.m_board 0 x = kingsOpposed.m_board 0 x := by
  simp [rookAfterCheck, ChessBoard.set, rookBeforeCheck]

/-! ## no read or write leaves the grid -/

theorem bind_ne_outOfRange {α β : Type} {r : Res α} {f : α → Res β}
    (h : r ≠ Res.outOfRange) (hf : ∀ a, f a ≠ Res.outOfRange) :
    r.bind f ≠ Res.outOfRange := by
  cases r with
  | ok a => exact hf a
  | outOfRange => exact absurd rfl h
  | outOfFuel => intro h2; cases h2

theorem ite_ne_outOfRange {α : Type} (P : Prop) [Decidable P] {a b : Res α}
    (ha : a ≠ Res.outOfRange) (hb : b ≠ Res.outOfRange) :
    (if P then a else b) ≠ Res.outOfRange := by
  split_ifs
  · exact ha
  · exact hb

theorem ok_ne_outOfRange {α : Type} (a : α) : Res.ok a ≠ Res.outOfRange := by
  intro h; cases h

theorem isPathClear_inRange (n : Nat) (b : ChessBoard) (sx sy ex ey : Int)
    (hs : onGrid sx sy) (he : onGrid ex ey)
    (hal : sy = ey ∨ sx = ex ∨ iabs (ex - sx) = iabs (ey - sy)) :
    isPathClear n b sx sy ex ey ≠ Res.outOfRange := by
  obtain ⟨v, hv, _⟩ := isPathClear_ok b sx sy ex ey hs he hal (n + 7) (by omega)
  rcases isPathClear_mono (show n ≤ n + 7 by omega) b sx sy ex ey with h | h
  · rw [h]; intro h2; cases h2
  · rw [h, hv]; exact ok_ne_outOfRange v

theorem pawnDiagonal_inRange (b : ChessBoard) (c : Char) (ex ey dx dy : Int) :
    pawnDiagonal b c ex ey dx dy ≠ Res.outOfRange := by
  unfold pawnDiagonal
  split_ifs <;> exact ok_ne_outOfRange _

theorem validatePawnMove_inRange (b : ChessBoard) (sx sy ex ey dx dy : Int)
    (hs : onGrid sx sy) (he : onGrid ex ey) (c : Char) :
    validatePawnMove b ⟨PieceType.PAWN, c⟩ sx sy ex ey dx dy ≠ Res.outOfRange := by
  rw [validatePawnMove_eq b sx sy ex ey dx dy hs he c]
  split_ifs <;> first | exact ok_ne_outOfRange _ | exact pawnDiagonal_inRange _ _ _ _ _ _

theorem validateKingMove_inRange (ic : Char → Res Bool) (n : Nat) (b : ChessBoard)
    (king : Piece) (sx sy ex ey dx dy : Int) (hs : onGrid sx sy)
    (hic : ∀ c, ic c ≠ Res.outOfRange) :
    validateKingMove ic n b king sx sy ex ey dx dy ≠ Res.outOfRange := by
  unfold validateKingMove
  refine ite_ne_outOfRange _ (ok_ne_outOfRange _) (ite_ne_outOfRange _
    (bind_ne_outOfRange (hic _) fun chk => ?_) (ok_ne_outOfRange _))
  refine ite_ne_outOfRange _ ?_ (ok_ne_outOfRange _)
  simp only
  rw [read_onGrid b (rook_corner_onGrid ex hs), Res.ok_bind]
  exact ite_ne_outOfRange _
    (isPathClear_inRange n b sx sy _ sy hs (rook_corner_onGrid ex hs) (Or.inl rfl))
    (ok_ne_outOfRange _)

theorem isValidMoveBody_inRange (ic : Char → Res Bool) (n : Nat) (b : ChessBoard)
    (sx sy ex ey : Int) (hs : onGrid sx sy) (he : onGrid ex ey)
    (hic : ∀ c, ic c ≠ Res.outOfRange) :
    isValidMoveBody ic n b sx sy ex ey ≠ Res.outOfRange := by
  unfold isValidMoveBody
  rw [read_onGrid b hs, read_onGrid b he]
  simp only [Res.ok_bind]
  refine ite_ne_outOfRange _ (ok_ne_outOfRange _) (ite_ne_outOfRange _ (ok_ne_outOfRange _) ?_)
  cases hp : b.m_board sy sx with
  | mk t c =>
    cases t with
    | PAWN => exact validatePawnMove_inRange b sx sy ex ey _ _ hs he c
    | ROOK =>
      simp only
      split_ifs with h
      · exact isPathClear_inRange n b sx sy ex ey hs he (by unfold iabs at h; omega)
      · exact ok_ne_outOfRange _
    | KNIGHT => exact ok_ne_outOfRange _
    | BISHOP =>
      simp only
      split_ifs with h
      · exact isPathClear_inRange n b sx sy ex ey hs he (Or.inr (Or.inr h))
      · exact ok_ne_outOfRange _
    | QUEEN =>
      simp only
      split_ifs with h
      · exact isPathClear_inRange n b sx sy ex ey hs he (by unfold iabs at h ⊢; omega)
      · exact ok_ne_outOfRange _
    | KING => exact validateKingMove_inRange ic n b _ sx sy ex ey _ _ hs hic
    | NONE => exact ok_ne_outOfRange _

theorem mem_idx8 {x : Int} (h : x ∈ idx8) : 0 ≤ x ∧ x < 8 := by
  simp only [idx8, List.mem_cons, List.mem_singleton, List.not_mem_nil, or_false] at h
  omega

theorem findKingRow_inRange (b : ChessBoard) (c : Char) (y : Int) (hy : 0 ≤ y ∧ y < 8) :
    ∀ (xs : List Int) (k : Int × Int), (∀ x ∈ xs, 0 ≤ x ∧ x < 8) →
      (k.1 = -1 ∨ onGrid k.1 k.2) →
      (findKingRow b c y xs k).1 = -1 ∨
        onGrid (findKingRow b c y xs k).1 (findKingRow b c y xs k).2 := by
  intro xs
  induction xs with
  | nil => intro k _ hk; exact hk
  | cons x xs ih =>
    intro k hxs hk
    unfold findKingRow
    split_ifs
    · right
      have hx := hxs x (List.mem_cons_self x xs)
      exact ⟨hx.1, hx.2, hy.1, hy.2⟩
    · exact ih k (fun x1 h1 => hxs x1 (List.mem_cons_of_mem x h1)) hk

theorem findKingRows_inRange (b : ChessBoard) (c : Char) :
    ∀ (ys : List Int) (k : Int × Int), (∀ y ∈ ys, 0 ≤ y ∧ y < 8) →
      (k.1 = -1 ∨ onGrid k.1 k.2) →
      (findKingRows b c ys k).1 = -1 ∨
        onGrid (findKingRows b c ys k).1 (findKingRows b c ys k).2 := by
  intro ys
  induction ys with
  | nil => intro k _ hk; exact hk
  | cons y ys ih =>
    intro k hys hk
    have h1 := findKingRow_inRange b c y (hys y (List.mem_cons_self y ys)) idx8 k
      (fun x hx => mem_idx8 hx) hk
    unfold findKingRows
    simp only
    split_ifs
    · exact h1
    · exact ih _ (fun y1 hy1 => hys y1 (List.mem_cons_of_mem y hy1)) h1

theorem attackRow_inRange (vm : Int → Int → Int → Int → Res Bool) (b : ChessBoard) (c : Char)
    (kx ky y : Int) (hy : 0 ≤ y ∧ y < 8)
    (hvm : ∀ x y1, onGrid x y1 → vm x y1 kx ky ≠ Res.outOfRange) :
    ∀ xs : List Int, (∀ x ∈ xs, 0 ≤ x ∧ x < 8) →
      attackRow vm b c kx ky y xs ≠ Res.outOfRange := by
  intro xs
  induction xs with
  | nil => intro _; exact ok_ne_outOfRange _
  | cons x xs ih =>
    intro hxs
    have hrest := ih (fun x1 h1 => hxs x1 (List.mem_cons_of_mem x h1))
    have hx := hxs x (List.mem_cons_self x xs)
    unfold attackRow
    refine ite_ne_outOfRange _ (bind_ne_outOfRange (hvm x y ⟨hx.1, hx.2, hy.1, hy.2⟩)
      fun hit => ite_ne_outOfRange _ (ok_ne_outOfRange _) hrest) hrest

theorem attackRows_inRange (vm : Int → Int → Int → Int → Res Bool) (b : ChessBoard) (c : Char)
    (kx ky : Int)
    (hvm : ∀ x y1, onGrid x y1 → vm x y1 kx ky ≠ Res.outOfRange) :
    ∀ ys : List Int, (∀ y ∈ ys, 0 ≤ y ∧ y < 8) →
      attackRows vm b c kx ky ys ≠ Res.outOfRange := by
  intro ys
  induction ys with
  | nil => intro _; exact ok_ne_outOfRange _
  | cons y ys ih =>
    intro hys
    have hrest := ih (fun y1 h1 => hys y1 (List.mem_cons_of_mem y h1))
    unfold attackRows
    refine bind_ne_outOfRange (attackRow_inRange vm b c kx ky y
      (hys y (List.mem_cons_self y ys)) hvm idx8 (fun x hx => mem_idx8 hx))
      fun hit => ite_ne_outOfRange _ (ok_ne_outOfRange _) hrest

theorem isInCheckBody_inRange (vm : Int → Int → Int → Int → Res Bool) (b : ChessBoard)
    (c : Char)
    (hvm : ∀ x y kx ky, onGrid x y → onGrid kx ky → vm x y kx ky ≠ Res.outOfRange) :
    isInCheckBody vm b c ≠ Res.outOfRange := by
  unfold isInCheckBody
  simp only
  have hk := findKingRows_inRange b c idx8 (-1, -1) (fun y hy => mem_idx8 hy) (Or.inl rfl)
  split_ifs with h
  · exact ok_ne_outOfRange _
  · have hg : onGrid (findKingRows b c idx8 (-1, -1)).1 (findKingRows b c idx8 (-1, -1)).2 := by
      rcases hk with h1 | h1
      · exact absurd (Or.inl h1) h
      · exact h1
    exact attackRows_inRange vm b c _ _ (fun x y hxy => hvm x y _ _ hxy hg) idx8
      (fun y hy => mem_idx8 hy)

theorem isValidMove_inRange (fuel : Nat) (b : ChessBoard) :
    ∀ sx sy ex ey : Int, onGrid sx sy → onGrid ex ey →
      isValidMove fuel b sx sy ex ey ≠ Res.outOfRange := by
  induction fuel with
  | zero =>
    intro sx sy ex ey hs he
    rw [isValidMove_eq]
    exact isValidMoveBody_inRange _ 0 b sx sy ex ey hs he (fun c h => by cases h)
  | succ n ih =>
    intro sx sy ex ey hs he
    rw [isValidMove_eq]
    exact isValidMoveBody_inRange _ (n + 1) b sx sy ex ey hs he
      (fun c => isInCheckBody_inRange _ b c ih)

theorem isInCheck_inRange (fuel : Nat) (b : ChessBoard) (c : Char) :
    isInCheck fuel b c ≠ Res.outOfRange :=
  isInCheckBody_inRange _ b c (isValidMove_inRange fuel b)

/-! ## substring search and castling in normal form -/

theorem startsWith_iff (pat : List Char) :
    ∀ s : List Char, startsWith pat s = true ↔ ∃ suf, s = pat ++ suf := by
  induction pat with
  | nil => intro s; simp [startsWith]
  | cons p ps ih =>
    intro s
    cases s with
    | nil => simp [startsWith]
    | cons c cs =>
      simp only [startsWith, Bool.and_eq_true, beq_iff_eq, ih cs, List.cons_append,
        List.cons.injEq]
      constructor
      · rintro ⟨h1, suf, h2⟩; exact ⟨suf, h1.symm, h2⟩
      · rintro ⟨suf, h1, h2⟩; exact ⟨h1.symm, suf, h2⟩

theorem occursIn_cons (pat : List Char) (c : Char) (cs : List Char) :
    occursIn pat (c :: cs) ↔ startsWith pat (c :: cs) = true ∨ occursIn pat cs := by
  rw [startsWith_iff]
  constructor
  · rintro ⟨pre, suf, h⟩
    cases pre with
    | nil => left; exact ⟨suf, by simpa using h⟩
    | cons a pre =>
      right
      simp only [List.cons_append, List.cons.injEq] at h
      exact ⟨pre, suf, h.2⟩
  · rintro (⟨suf, h⟩ | ⟨pre, suf, h⟩)
    · exact ⟨[], suf, by simpa using h⟩
    · exact ⟨c :: pre, suf, by simp [h]⟩

theorem stdFind_none_iff (pat : List Char) :
    ∀ s : List Char, stdFind pat s = none ↔ ¬ occursIn pat s := by
  intro s
  induction s with
  | nil =>
    unfold stdFind occursIn
    by_cases hp : pat = []
    · subst hp; simp
    · simp [hp]
  | cons c cs ih =>
    rw [occursIn_cons, stdFind]
    by_cases hsw : startsWith pat (c :: cs) = true
    · simp [hsw]
    · simp [hsw, ih]

theorem castling_eq (str position : String) (rookStart rookEnd : Int × Int) :
    castling str position rookStart rookEnd =
      if str = "e8c8" ∧ stdFind ['e', '8'] position.data = none then
        (true, toCoords 'a' '8', toCoords 'd' '8')
      else if str = "e1c1" ∧ stdFind ['e', '1'] position.data = none then
        (true, toCoords 'a' '1', toCoords 'd' '1')
      else if str = "e8g8" ∧ stdFind ['e', '8'] position.data = none then
        (true, toCoords 'h' '8', toCoords 'f' '8')
      else if str = "e1g1" ∧ stdFind ['e', '1'] position.data = none then
        (true, toCoords 'h' '1', toCoords 'f' '1')
      else (false, rookStart, rookEnd) := by
  unfold castling
  simp only [ite_and]

/-! ## kings before and after a move -/

theorem empty_ne_king (c : Char) : ({} : Piece) ≠ ⟨PieceType.KING, c⟩ := by
  intro h
  have h2 : PieceType.NONE = PieceType.KING := congrArg Piece.m_type h
  exact absurd h2 (by decide)

theorem exactlyOneKing_preserved (fuel : Nat) (b b2 : ChessBoard) (sx sy ex ey : Int)
    (hs : onGrid sx sy) (he : onGrid ex ey)
    (hv : isValidMove fuel b sx sy ex ey = Res.ok true)
    (hnk : (b.m_board ey ex).m_type ≠ PieceType.KING)
    (hcells : ∀ x y : Int, b2.m_board y x =
        if y = ey - pawnDir (b.m_board sy sx).m_color ∧ x = ex ∧ enPassantMove b sx sy ex ey
          then {}
        else if y = sy ∧ x = sx then {}
        else if y = ey ∧ x = ex then b.m_board sy sx
        else b.m_board y x)
    (c : Char) (h1 : exactlyOneKing b c) : exactlyOneKing b2 c := by
  obtain ⟨hne, _⟩ := isValidMove_colors_differ fuel b sx sy ex ey hs he hv
  obtain ⟨kx, ky, hkg, hk⟩ := h1
  by_cases hmover : b.m_board sy sx = ⟨PieceType.KING, c⟩
  · -- the king of colour `c` itself moves
    have hK : sx = kx ∧ sy = ky := (hk sx sy hs).mp hmover
    have hnep : ¬ enPassantMove b sx sy ex ey := by
      intro h
      have h2 := h.1
      rw [hmover] at h2
      have h3 : PieceType.KING = PieceType.PAWN := h2
      exact absurd h3 (by decide)
    refine ⟨ex, ey, he, fun x y hxy => ?_⟩
    rw [hcells x y]
    simp only [hnep, and_false, if_false]
    by_cases hst : y = sy ∧ x = sx
    · rw [if_pos hst]
      constructor
      · intro h; exact absurd h (empty_ne_king c)
      · intro h; exact absurd ⟨hst.2.symm.trans h.1, hst.1.symm.trans h.2⟩ hne
    · rw [if_neg hst]
      by_cases hen : y = ey ∧ x = ex
      · rw [if_pos hen]
        exact ⟨fun _ => ⟨hen.2, hen.1⟩, fun _ => hmover⟩
      · rw [if_neg hen]
        constructor
        · intro h
          have h3 := (hk x y hxy).mp h
          exact absurd ⟨h3.2.trans hK.2.symm, h3.1.trans hK.1.symm⟩ hst
        · intro h; exact absurd ⟨h.2, h.1⟩ hen
  · -- another piece moves; the king stays on `(kx, ky)`
    have hkcell : b.m_board ky kx = ⟨PieceType.KING, c⟩ := (hk kx ky hkg).mpr ⟨rfl, rfl⟩
    have hKs : ¬ (ky = sy ∧ kx = sx) := by
      rintro ⟨e1, e2⟩; rw [e1, e2] at hkcell; exact hmover hkcell
    have hKe : ¬ (ky = ey ∧ kx = ex) := by
      rintro ⟨e1, e2⟩; rw [e1, e2] at hkcell; rw [hkcell] at hnk; exact hnk rfl
    have hKp : ¬ (ky = ey - pawnDir (b.m_board sy sx).m_color ∧ kx = ex ∧
        enPassantMove b sx sy ex ey) := by
      rintro ⟨e1, e2, hep⟩
      obtain ⟨_, hpawn, _⟩ := accepted_enPassant fuel b sx sy ex ey hs he hv hep
      rw [← e1, ← e2, hkcell] at hpawn
      have h3 : PieceType.KING = PieceType.PAWN := hpawn
      exact absurd h3 (by decide)
    refine ⟨kx, ky, hkg, fun x y hxy => ?_⟩
    rw [hcells x y]
    by_cases hp : y = ey - pawnDir (b.m_board sy sx).m_color ∧ x = ex ∧
        enPassantMove b sx sy ex ey
    · rw [if_pos hp]
      constructor
      · intro h; exact absurd h (empty_ne_king c)
      · rintro ⟨e1, e2⟩; rw [e1, e2] at hp; exact absurd hp hKp
    · rw [if_neg hp]
      by_cases hst : y = sy ∧ x = sx
      · rw [if_pos hst]
        constructor
        · intro h; exact absurd h (empty_ne_king c)
        · rintro ⟨e1, e2⟩; rw [e1, e2] at hst; exact absurd hst hKs
      · rw [if_neg hst]
        by_cases hen : y = ey ∧ x = ex
        · rw [if_pos hen]
          constructor
          · intro h; exact absurd h hmover
          · rintro ⟨e1, e2⟩; rw [e1, e2] at hen; exact absurd hen hKe
        · rw [if_neg hen]
          exact hk x y hxy

theorem kingAttacked_white : exactlyOneKing kingAttacked 'W' := by
  refine ⟨4, 0, by decide, fun x y _ => ?_⟩
  unfold kingAttacked
  simp only
  split_ifs with h1 h2 h3 h4
  · exact ⟨fun _ => ⟨h1.2, h1.1⟩, fun _ => rfl⟩
  · exact ⟨fun h => absurd (congrArg Piece.m_type h) (by decide), fun h => absurd ⟨h.2, h.1⟩ h1⟩
  · exact ⟨fun h => absurd (congrArg Piece.m_type h) (by decide), fun h => absurd ⟨h.2, h.1⟩ h1⟩
  · exact ⟨fun h => absurd (congrArg Piece.m_color h) (by decide), fun h => absurd ⟨h.2, h.1⟩ h1⟩
  · exact ⟨fun h => absurd (congrArg Piece.m_type h) (by decide), fun h => absurd ⟨h.2, h.1⟩ h1⟩

theorem kingAttacked_black : exactlyOneKing kingAttacked 'B' := by
  refine ⟨0, 7, by decide, fun x y _ => ?_⟩
  unfold kingAttacked
  simp only
  split_ifs with h1 h2 h3 h4
  · exact ⟨fun h => absurd (congrArg Piece.m_color h) (by decide), fun h => by omega⟩
  · exact ⟨fun h => absurd (congrArg Piece.m_type h) (by decide), fun h => by omega⟩
  · exact ⟨fun h => absurd (congrArg Piece.m_type h) (by decide), fun h => by omega⟩
  · exact ⟨fun _ => ⟨h4.2, h4.1⟩, fun _ => rfl⟩
  · exact ⟨fun h => absurd (congrArg Piece.m_type h) (by decide), fun h => absurd ⟨h.2, h.1⟩ h4⟩

theorem kingTaken_no_white_king (x y : Int) : kingTaken.m_board y x ≠ ⟨PieceType.KING, 'W'⟩ := by
  unfold kingTaken ChessBoard.set kingAttacked
  simp only
  split_ifs <;> intro h <;>
    first
    | exact absurd (congrArg Piece.m_type h) (by decide)
    | exact absurd (congrArg Piece.m_color h) (by decide)
    | omega

/-! ## setInitialPositions on an arbitrary board -/

theorem setInitialCell_cell (b : ChessBoard) (y x : Int) (hx : 0 ≤ x ∧ x < 8) (y1 x1 : Int) :
    (setInitialCell b y x).m_board y1 x1 =
      if (y1 = y ∧ x1 = x) ∧ writtenRank y then standardPiece x y else b.m_board y1 x1 := by
  obtain ⟨h0, h8⟩ := hx
  unfold setInitialCell writtenRank standardPiece
  by_cases hy1 : y = 1
  · subst hy1; simp [ChessBoard.set]
  · by_cases hy6 : y = 6
    · subst hy6; simp [ChessBoard.set]
    · by_cases hy0 : y = 0
      · subst hy0
        interval_cases x <;> simp [ChessBoard.set, backRankType]
      · by_cases hy7 : y = 7
        · subst hy7
          interval_cases x <;> simp [ChessBoard.set, backRankType]
        · simp [hy1, hy6, hy0, hy7]

theorem set_target (b : ChessBoard) (x y : Int) (p : Piece) :
    (b.set x y p).m_enPassantTarget = b.m_enPassantTarget := rfl

theorem setInitialCell_target (b : ChessBoard) (y x : Int) :
    (setInitialCell b y x).m_enPassantTarget = b.m_enPassantTarget := by
  unfold setInitialCell
  simp only [apply_ite ChessBoard.m_enPassantTarget, set_target, ite_self]

theorem initRow_cell (y : Int) :
    ∀ (xs : List Int) (b : ChessBoard), (∀ x ∈ xs, 0 ≤ x ∧ x < 8) → ∀ y1 x1 : Int,
      (xs.foldl (fun bx x => setInitialCell bx y x) b).m_board y1 x1 =
        if (y1 = y ∧ x1 ∈ xs) ∧ writtenRank y then standardPiece x1 y else b.m_board y1 x1 := by
  intro xs
  induction xs with
  | nil => intro b _ y1 x1; simp
  | cons x xs ih =>
    intro b hxs y1 x1
    rw [List.foldl_cons, ih _ (fun x2 h2 => hxs x2 (List.mem_cons_of_mem x h2)),
      setInitialCell_cell b y x (hxs x (List.mem_cons_self x xs))]
    by_cases h1 : (y1 = y ∧ x1 ∈ xs) ∧ writtenRank y
    · rw [if_pos h1, if_pos ⟨⟨h1.1.1, List.mem_cons_of_mem x h1.1.2⟩, h1.2⟩]
    · rw [if_neg h1]
      by_cases h2 : (y1 = y ∧ x1 = x) ∧ writtenRank y
      · rw [if_pos h2, if_pos ⟨⟨h2.1.1, by rw [h2.1.2]; exact List.mem_cons_self x xs⟩, h2.2⟩,
          h2.1.2]
      · rw [if_neg h2, if_neg]
        rintro ⟨⟨e1, e2⟩, e3⟩
        rcases List.mem_cons.mp e2 with e4 | e4
        · exact h2 ⟨⟨e1, e4⟩, e3⟩
        · exact h1 ⟨⟨e1, e4⟩, e3⟩

theorem initRow_target (y : Int) :
    ∀ (xs : List Int) (b : ChessBoard),
      (xs.foldl (fun bx x => setInitialCell bx y x) b).m_enPassantTarget
        = b.m_enPassantTarget := by
  intro xs
  induction xs with
  | nil => intro b; rfl
  | cons x xs ih => intro b; rw [List.foldl_cons, ih, setInitialCell_target]

theorem initRows_cell :
    ∀ (ys : List Int) (b : ChessBoard) (y1 x1 : Int),
      (ys.foldl (fun by1 y => idx8.foldl (fun bx x => setInitialCell bx y x) by1) b).m_board
          y1 x1 =
        if (y1 ∈ ys ∧ x1 ∈ idx8) ∧ writtenRank y1 then standardPiece x1 y1
        else b.m_board y1 x1 := by
  intro ys
  induction ys with
  | nil => intro b y1 x1; simp
  | cons y ys ih =>
    intro b y1 x1
    rw [List.foldl_cons, ih, initRow_cell y idx8 b (fun x hx => mem_idx8 hx)]
    by_cases h1 : (y1 ∈ ys ∧ x1 ∈ idx8) ∧ writtenRank y1
    · rw [if_pos h1, if_pos ⟨⟨List.mem_cons_of_mem y h1.1.1, h1.1.2⟩, h1.2⟩]
    · rw [if_neg h1]
      by_cases h2 : (y1 = y ∧ x1 ∈ idx8) ∧ writtenRank y
      · rw [if_pos h2, h2.1.1]
        rw [if_pos ⟨⟨List.mem_cons_self y ys, h2.1.2⟩, h2.2⟩]
      · rw [if_neg h2, if_neg]
        rintro ⟨⟨e1, e2⟩, e3⟩
        rcases List.mem_cons.mp e1 with e4 | e4
        · exact h2 ⟨⟨e4, e2⟩, e4 ▸ e3⟩
        · exact h1 ⟨⟨e4, e2⟩, e3⟩

theorem idx8_mem_iff (x : Int) : x ∈ idx8 ↔ 0 ≤ x ∧ x < 8 := by
  constructor
  · exact mem_idx8
  · intro h
    simp only [idx8, List.mem_cons, List.mem_singleton, List.not_mem_nil, or_false]
    omega

theorem setInitialPositions_cell (b : ChessBoard) (x y : Int) :
    (setInitialPositions b).m_board y x =
      if onGrid x y ∧ writtenRank y then standardPiece x y else b.m_board y x := by
  unfold setInitialPositions
  rw [initRows_cell]
  have h : ((y ∈ idx8 ∧ x ∈ idx8) ∧ writtenRank y) ↔ (onGrid x y ∧ writtenRank y) := by
    rw [idx8_mem_iff, idx8_mem_iff]
    unfold onGrid
    constructor
    · rintro ⟨⟨⟨a, b⟩, c, d⟩, e⟩; exact ⟨⟨c, d, a, b⟩, e⟩
    · rintro ⟨⟨c, d, a, b⟩, e⟩; exact ⟨⟨⟨a, b⟩, c, d⟩, e⟩
  simp only [h]

theorem initRows_target :
    ∀ (ys : List Int) (b : ChessBoard),
      (ys.foldl (fun by1 y => idx8.foldl (fun bx x => setInitialCell bx y x) by1)
        b).m_enPassantTarget = b.m_enPassantTarget := by
  intro ys
  induction ys with
  | nil => intro b; rfl
  | cons y ys ih => intro b; rw [List.foldl_cons, ih, initRow_target]

theorem setInitialPositions_target (b : ChessBoard) :
    (setInitialPositions b).m_enPassantTarget = b.m_enPassantTarget :=
  initRows_target idx8 b

/-! ## toChess and toCoords -/

theorem toChess_toCoords (x y : Int) (h : onGrid x y) :
    ∃ c r : Char, toChess x y = String.mk [c, r] ∧
      'a'.toNat ≤ c.toNat ∧ c.toNat ≤ 'h'.toNat ∧ '1'.toNat ≤ r.toNat ∧ r.toNat ≤ '8'.toNat ∧
      toCoords c r = (x, y) := by
  obtain ⟨h1, h2, h3, h4⟩ := h
  refine ⟨toChar (97 + x), toChar (7 - y + 49), rfl, ?_⟩
  interval_cases x <;> interval_cases y <;> decide

theorem toCoords_toChess (c r : Char)
    (hc : 'a'.toNat ≤ c.toNat ∧ c.toNat ≤ 'h'.toNat)
    (hr : '1'.toNat ≤ r.toNat ∧ r.toNat ≤ '8'.toNat) :
    toChess (toCoords c r).1 (toCoords c r).2 = String.mk [c, r] ∧
      onGrid (toCoords c r).1 (toCoords c r).2 := by
  have hc1 : 97 ≤ c.toNat := hc.1
  have hc2 : c.toNat ≤ 104 := hc.2
  have hr1 : 49 ≤ r.toNat := hr.1
  have hr2 : r.toNat ≤ 56 := hr.2
  have ec : c = Char.ofNat c.toNat := (Char.ofNat_toNat c).symm
  have er : r = Char.ofNat r.toNat := (Char.ofNat_toNat r).symm
  generalize c.toNat = n at hc1 hc2 ec
  generalize r.toNat = m at hr1 hr2 er
  subst ec er
  interval_cases n <;> interval_cases m <;> decide

/-! ## equality of boards -/

theorem board_ext (b1 b2 : ChessBoard) (h1 : b1.m_board = b2.m_board)
    (h2 : b1.m_enPassantTarget = b2.m_enPassantTarget) : b1 = b2 := by
  cases b1; cases b2
  simp only at h1 h2
  rw [h1, h2]

/-! ## C1 -/

/-- C1: on the freshly constructed board, `setInitialPositions` leaves rank 0 with the White
back rank (R N B Q K B N R on files 0..7), rank 1 with White pawns, rank 6 with Black pawns,
rank 7 with the Black back rank, and every square of ranks 2..5 empty. -/
theorem setInitialPositions_ctor_layout (x y : Int) (h : onGrid x y) :
    let b := setInitialPositions ChessBoard.ctor
    (y = 0 → b.m_board y x = ⟨backRankType x, 'W'⟩) ∧
    (y = 1 → b.m_board y x = ⟨PieceType.PAWN, 'W'⟩) ∧
    (y = 6 → b.m_board y x = ⟨PieceType.PAWN, 'B'⟩) ∧
    (y = 7 → b.m_board y x = ⟨backRankType x, 'B'⟩) ∧
    (2 ≤ y ∧ y ≤ 5 → (b.m_board y x).m_type = PieceType.NONE) := by
  obtain ⟨hx0, hx1, hy0, hy1⟩ := h
  interval_cases x <;> interval_cases y <;> decide

/-- Witness of C1 at the White king's square `(4, 0)`. -/
theorem setInitialPositions_ctor_layout_witness :
    (setInitialPositions ChessBoard.ctor).m_board 0 4 = ⟨PieceType.KING, 'W'⟩ :=
  (setInitialPositions_ctor_layout 4 0 (by decide)).1 rfl

/-! ## C2 -/

/-- C2 (fails on the code): with the White king on `(4, 0)` and the Black king on `(6, 0)`,
both on the grid, `isValidMove (4, 0) -> (6, 0)` and `isInCheck 'W'` exhaust every amount of
fuel: the recursion `isValidMove -> validateKingMove -> isInCheck -> isValidMove` between the two
kings never ends. -/
theorem kingsOpposed_never_returns :
    onGrid 4 0 ∧ onGrid 6 0 ∧
    ∀ fuel : Nat, isValidMove fuel kingsOpposed 4 0 6 0 = Res.outOfFuel ∧
      isInCheck fuel kingsOpposed 'W' = Res.outOfFuel :=
  ⟨by decide, by decide, fun fuel =>
    ⟨(opposed_diverges kingsOpposed (fun _ => rfl) fuel).1,
      opposed_check_W kingsOpposed (fun _ => rfl) _
        (opposed_diverges kingsOpposed (fun _ => rfl) fuel).2⟩⟩

/-! ## C3 -/

/-- C3: `isValidMove` answers false when start = end, when the cells at start and end carry the
same colour, and when the start square is empty; hence an accepted move leaves an occupied
square for a different square whose cell does not carry the mover's colour. -/
theorem isValidMove_rejects_trivial (fuel : Nat) (b : ChessBoard) (sx sy ex ey : Int)
    (hs : onGrid sx sy) (he : onGrid ex ey) :
    ((sx = ex ∧ sy = ey) ∨ (b.m_board sy sx).m_color = (b.m_board ey ex).m_color ∨
        (b.m_board sy sx).m_type = PieceType.NONE →
      isValidMove fuel b sx sy ex ey = Res.ok false) ∧
    (isValidMove fuel b sx sy ex ey = Res.ok true →
      (sx, sy) ≠ (ex, ey) ∧ (b.m_board sy sx).m_type ≠ PieceType.NONE ∧
        (b.m_board ey ex).m_color ≠ (b.m_board sy sx).m_color) := by
  have key : (sx = ex ∧ sy = ey) ∨ (b.m_board sy sx).m_color = (b.m_board ey ex).m_color ∨
      (b.m_board sy sx).m_type = PieceType.NONE →
      isValidMove fuel b sx sy ex ey = Res.ok false := by
    intro h
    by_cases hne : sx = ex ∧ sy = ey
    · rw [isValidMove_eq]; simp only [isValidMoveBody, if_pos hne]
    · by_cases hcol : (b.m_board sy sx).m_color = (b.m_board ey ex).m_color
      · rw [isValidMove_eq]
        simp only [isValidMoveBody, if_neg hne, read_onGrid b hs, read_onGrid b he,
          Res.ok_bind, if_pos hcol]
      · rcases h with h | h | h
        · exact absurd h hne
        · exact absurd h hcol
        · rw [isValidMove_dispatch fuel b sx sy ex ey hs he hne hcol, h]
  refine ⟨key, fun hv => ?_⟩
  refine ⟨?_, ?_, ?_⟩
  · intro h
    have h1 := key (Or.inl ⟨congrArg Prod.fst h, congrArg Prod.snd h⟩)
    rw [hv] at h1; exact absurd h1 (by decide)
  · intro h
    have h1 := key (Or.inr (Or.inr h))
    rw [hv] at h1; exact absurd h1 (by decide)
  · intro h
    have h1 := key (Or.inr (Or.inl h.symm))
    rw [hv] at h1; exact absurd h1 (by decide)

/-- Witness of C3: a rook asked to stay on its square `(0, 0)` of the initial position. -/
theorem isValidMove_rejects_trivial_witness :
    isValidMove 8 (setInitialPositions ChessBoard.ctor) 0 0 0 0 = Res.ok false :=
  (isValidMove_rejects_trivial 8 (setInitialPositions ChessBoard.ctor) 0 0 0 0
    (by decide) (by decide)).1 (Or.inl ⟨rfl, rfl⟩)

/-! ## C4 -/

/-- C4: for on-grid squares on a common rank, file or diagonal, `isPathClear` returns (with
7 units of fuel or more, never leaving the grid) and returns true exactly when every square
strictly between them is empty; for adjacent squares it returns true. -/
theorem isPathClear_spec (b : ChessBoard) (sx sy ex ey : Int)
    (hs : onGrid sx sy) (he : onGrid ex ey)
    (hal : sy = ey ∨ sx = ex ∨ iabs (ex - sx) = iabs (ey - sy))
    (fuel : Nat) (hf : 7 ≤ fuel) :
    ∃ v, isPathClear fuel b sx sy ex ey = Res.ok v ∧
      (v = true ↔ pathEmpty b sx sy ex ey) ∧
      (iabs (ex - sx) ≤ 1 ∧ iabs (ey - sy) ≤ 1 → v = true) := by
  obtain ⟨v, hv, hiff⟩ := isPathClear_ok b sx sy ex ey hs he hal fuel hf
  refine ⟨v, hv, hiff, ?_⟩
  rintro ⟨hdx, hdy⟩
  rw [hiff]
  intro x y hb
  unfold iabs at hdx hdy
  unfold strictlyBetween at hb
  simp only [ne_eq, Prod.mk.injEq] at hb
  obtain ⟨h1, h2, h3, h4, h5, h6, h7⟩ := hb
  exfalso
  have cx : ex - sx = -1 ∨ ex - sx = 0 ∨ ex - sx = 1 := by omega
  have cy : ey - sy = -1 ∨ ey - sy = 0 ∨ ey - sy = 1 := by omega
  rcases cx with e | e | e <;> rcases cy with e' | e' | e' <;> rw [e, e'] at h7 <;>
    simp only [mul_neg, mul_one, mul_zero] at h7 <;> omega

/-- Witness of C4: the file from `(0, 1)` to `(0, 6)` of the initial position is clear. -/
theorem isPathClear_spec_witness :
    ∃ v, isPathClear 7 (setInitialPositions ChessBoard.ctor) 0 1 0 6 = Res.ok v ∧
      (v = true ↔ pathEmpty (setInitialPositions ChessBoard.ctor) 0 1 0 6) ∧
      (iabs (0 - 0) ≤ 1 ∧ iabs (6 - 1) ≤ 1 → v = true) :=
  isPathClear_spec (setInitialPositions ChessBoard.ctor) 0 1 0 6 (by decide) (by decide)
    (Or.inr (Or.inl rfl)) 7 (le_refl 7)

/-! ## C5 -/

/-- C5: for on-grid squares start ≠ end whose cells carry different colours, with
dx = |end.file - start.file| and dy = |end.rank - start.rank|: a Rook's move is accepted iff
(dx = 0 or dy = 0) and every square strictly between is empty; a Bishop's iff dx = dy and the
squares between are empty; a Queen's iff (dx = dy or dx = 0 or dy = 0) and the squares between
are empty; a Knight's iff (dx, dy) is (2, 1) or (1, 2), and the Knight's answer is the same on
every board that agrees on the start and end cells. -/
theorem isValidMove_pieces (b : ChessBoard) (sx sy ex ey : Int)
    (hs : onGrid sx sy) (he : onGrid ex ey) (hne : (sx, sy) ≠ (ex, ey))
    (hcol : (b.m_board sy sx).m_color ≠ (b.m_board ey ex).m_color)
    (fuel : Nat) (hf : 7 ≤ fuel) :
    ((b.m_board sy sx).m_type = PieceType.ROOK →
      ∃ v, isValidMove fuel b sx sy ex ey = Res.ok v ∧
        (v = true ↔ (iabs (ex - sx) = 0 ∨ iabs (ey - sy) = 0) ∧ pathEmpty b sx sy ex ey)) ∧
    ((b.m_board sy sx).m_type = PieceType.BISHOP →
      ∃ v, isValidMove fuel b sx sy ex ey = Res.ok v ∧
        (v = true ↔ iabs (ex - sx) = iabs (ey - sy) ∧ pathEmpty b sx sy ex ey)) ∧
    ((b.m_board sy sx).m_type = PieceType.QUEEN →
      ∃ v, isValidMove fuel b sx sy ex ey = Res.ok v ∧
        (v = true ↔ (iabs (ex - sx) = iabs (ey - sy) ∨ iabs (ex - sx) = 0 ∨
          iabs (ey - sy) = 0) ∧ pathEmpty b sx sy ex ey)) ∧
    ((b.m_board sy sx).m_type = PieceType.KNIGHT →
      (∃ v, isValidMove fuel b sx sy ex ey = Res.ok v ∧
        (v = true ↔ (iabs (ex - sx) = 2 ∧ iabs (ey - sy) = 1) ∨
          (iabs (ex - sx) = 1 ∧ iabs (ey - sy) = 2))) ∧
      ∀ b2 : ChessBoard, b2.m_board sy sx = b.m_board sy sx →
        b2.m_board ey ex = b.m_board ey ex →
        isValidMove fuel b2 sx sy ex ey = isValidMove fuel b sx sy ex ey) := by
  have hne2 : ¬ (sx = ex ∧ sy = ey) := fun h => hne (by rw [h.1, h.2])
  have hd := isValidMove_dispatch fuel b sx sy ex ey hs he hne2 hcol
  refine ⟨fun ht => ?_, fun ht => ?_, fun ht => ?_, fun ht => ⟨?_, ?_⟩⟩
  · rw [hd, ht]
    exact slider_ok b sx sy ex ey hs he fuel hf _ (by unfold iabs; omega)
  · rw [hd, ht]
    exact slider_ok b sx sy ex ey hs he fuel hf _ (fun h => Or.inr (Or.inr h))
  · rw [hd, ht]
    exact slider_ok b sx sy ex ey hs he fuel hf _ (by unfold iabs; omega)
  · rw [hd, ht]
    exact ⟨_, rfl, by simp⟩
  · intro b2 h1 h2
    rw [hd, isValidMove_dispatch fuel b2 sx sy ex ey hs he hne2 (by rw [h1, h2]; exact hcol),
      h1, ht]

/-- Witness of C5: the knight move from `(1, 0)` to `(2, 2)` in the initial position. -/
theorem isValidMove_pieces_witness :
    ∃ v, isValidMove 7 (setInitialPositions ChessBoard.ctor) 1 0 2 2 = Res.ok v ∧
      (v = true ↔ (iabs (2 - 1) = 2 ∧ iabs (2 - 0) = 1) ∨ (iabs (2 - 1) = 1 ∧ iabs (2 - 0) = 2)) :=
  ((isValidMove_pieces (setInitialPositions ChessBoard.ctor) 1 0 2 2 (by decide) (by decide)
    (by decide) (by decide) 7 (le_refl 7)).2.2.2 (by decide)).1

/-! ## C6 -/

/-- C6: for on-grid squares start ≠ end where start holds a pawn of colour `c` with direction
`d` and the end cell does not carry colour `c`, `isValidMove` returns, and returns true iff
exactly one of these holds: (a) same file, end empty, end.rank = start.rank + d; (b) same file,
|rank difference| = 2, start on the home rank of `c` (rank 1 for White, rank 6 for Black), the
intermediate square and end both empty; (c) |file difference| = |rank difference| = 1 and end
occupied; (d) |file difference| = |rank difference| = 1, end empty and equal to
`m_enPassantTarget`, and the square (end.file, end.rank - d) on the grid holding a pawn of
another colour. A two-square advance with the intermediate or the destination square occupied
is rejected, and so is a straight move onto an occupied square. -/
theorem isValidMove_pawn (fuel : Nat) (b : ChessBoard) (sx sy ex ey : Int)
    (hs : onGrid sx sy) (he : onGrid ex ey) (hne : (sx, sy) ≠ (ex, ey))
    (c : Char) (hp : b.m_board sy sx = ⟨PieceType.PAWN, c⟩)
    (hcol : (b.m_board ey ex).m_color ≠ c) :
    ∃ v, isValidMove fuel b sx sy ex ey = Res.ok v ∧
      (v = true ↔ exactlyOne4
        (sx = ex ∧ (b.m_board ey ex).m_type = PieceType.NONE ∧ ey = sy + pawnDir c)
        (sx = ex ∧ iabs (ey - sy) = 2 ∧ ((c = 'W' ∧ sy = 1) ∨ (c = 'B' ∧ sy = 6)) ∧
          (b.m_board (sy + pawnDir c) sx).m_type = PieceType.NONE ∧
          (b.m_board ey ex).m_type = PieceType.NONE)
        (iabs (ex - sx) = 1 ∧ iabs (ey - sy) = 1 ∧
          (b.m_board ey ex).m_type ≠ PieceType.NONE)
        (iabs (ex - sx) = 1 ∧ iabs (ey - sy) = 1 ∧
          (b.m_board ey ex).m_type = PieceType.NONE ∧ (ex, ey) = b.m_enPassantTarget ∧
          onGrid ex (ey - pawnDir c) ∧
          (b.m_board (ey - pawnDir c) ex).m_type = PieceType.PAWN ∧
          (b.m_board (ey - pawnDir c) ex).m_color ≠ c)) ∧
      (sx = ex → iabs (ey - sy) = 2 →
        (b.m_board (sy + pawnDir c) sx).m_type ≠ PieceType.NONE ∨
          (b.m_board ey ex).m_type ≠ PieceType.NONE → v = false) ∧
      (sx = ex → (b.m_board ey ex).m_type ≠ PieceType.NONE → v = false) := by
  have hne2 : ¬ (sx = ex ∧ sy = ey) := fun h => hne (by rw [h.1, h.2])
  have hcol2 : (b.m_board sy sx).m_color ≠ (b.m_board ey ex).m_color := by
    rw [hp]; exact fun h => hcol h.symm
  have hd := pawnDir_cases c
  obtain ⟨v, hv, hiff⟩ := pawn_or b sx sy ex ey hs he c hcol
  have hdx : sx = ex → ¬ iabs (ex - sx) = 1 := iabs_sub_ne_one
  have hdy : ey = sy + pawnDir c → ¬ iabs (ey - sy) = 2 := pawn_step_ne_two hd
  refine ⟨v, ?_, ?_, ?_, ?_⟩
  · rw [isValidMove_dispatch fuel b sx sy ex ey hs he hne2 hcol2, hp]
    exact hv
  · rw [hiff]
    exact (exactlyOne4_iff_or
      (fun hA hB => hdy hA.2.2 hB.2.1)
      (fun hA hC => hdx hA.1 hC.1)
      (fun hA hD => hdx hA.1 hD.1)
      (fun hB hC => hdx hB.1 hC.1)
      (fun hB hD => hdx hB.1 hD.1)
      (fun hC hD => hC.2.2 hD.2.2.1)).symm
  · intro h1 h2 h3
    cases v with
    | false => rfl
    | true =>
      exfalso
      rcases hiff.mp rfl with h | h | h | h
      · exact hdy h.2.2 h2
      · rcases h3 with h3 | h3
        · exact h3 h.2.2.2.1
        · exact h3 h.2.2.2.2
      · exact hdx h1 h.1
      · exact hdx h1 h.1
  · intro h1 h3
    cases v with
    | false => rfl
    | true =>
      exfalso
      rcases hiff.mp rfl with h | h | h | h
      · exact h3 h.2.1
      · exact h3 h.2.2.2.2
      · exact hdx h1 h.1
      · exact hdx h1 h.1

/-- Witness of C6: the double step of the White e-pawn in the initial position. -/
theorem isValidMove_pawn_witness :
    ∃ v, isValidMove 0 (setInitialPositions ChessBoard.ctor) 4 1 4 3 = Res.ok v :=
  let ⟨v, hv, _⟩ := isValidMove_pawn 0 (setInitialPositions ChessBoard.ctor) 4 1 4 3
    (by decide) (by decide) (by decide) 'W' (by decide) (by decide)
  ⟨v, hv⟩

/-! ## C7 -/

/-- C7: when `isInCheck c` answers true, `isValidMove` rejects every move of a king of colour
`c` with file difference 2 and rank difference 0, on every board (so whatever stands on the
rook corners), for every larger amount of fuel. -/
theorem castling_rejected_in_check (n : Nat) (b : ChessBoard) (sx sy ex ey : Int)
    (hs : onGrid sx sy) (he : onGrid ex ey) (c : Char)
    (hk : b.m_board sy sx = ⟨PieceType.KING, c⟩)
    (hdx : iabs (ex - sx) = 2) (hdy : iabs (ey - sy) = 0)
    (hchk : isInCheck n b c = Res.ok true) :
    ∀ m : Nat, n < m → isValidMove m b sx sy ex ey = Res.ok false := by
  intro m hm
  obtain ⟨k, rfl⟩ : ∃ k, m = k + 1 := ⟨m - 1, by omega⟩
  have hck : isInCheck k b c = Res.ok true :=
    Res.le_ok (isInCheck_mono (by omega) b c) hchk
  by_cases hcol : (b.m_board sy sx).m_color = (b.m_board ey ex).m_color
  · exact isValidMove_same_color _ b sx sy ex ey hs he hcol
  · rw [isValidMove_castle (k + 1) b sx sy ex ey hs he c hk hdx hdy hcol]
    show (isInCheck k b c).bind _ = _
    rw [hck]; rfl

/-- Witness of C7: the attacked White king of `kingAttacked` may not castle with the rook on
`(7, 0)`. -/
theorem castling_rejected_in_check_witness :
    isValidMove 8 kingAttacked 4 0 6 0 = Res.ok false :=
  castling_rejected_in_check 7 kingAttacked 4 0 6 0 (by decide) (by decide) 'W' (by decide)
    (by decide) (by decide) (by decide) 8 (by decide)

/-! ## C8 -/

/-- C8 as stated fails: on `castleOnRank3` the White king on `(4, 3)` is allowed the move to
`(6, 3)` although no rook stands on the corner `(7, 0)` of White's back rank. -/
theorem castling_back_rank_counterexample :
    castleOnRank3.m_board 3 4 = ⟨PieceType.KING, 'W'⟩ ∧ iabs (6 - 4) = 2 ∧ iabs (3 - 3) = 0 ∧
    isValidMove 8 castleOnRank3 4 3 6 3 = Res.ok true ∧
    (castleOnRank3.m_board 0 7).m_type ≠ PieceType.ROOK := by
  decide

/-- C8 amended: a king move with file difference 2 and rank difference 0 is accepted only if
`isInCheck` of the king's colour answers false, a Rook of the king's colour sits on the rank
the king stands on, on file 7 when the king moves toward higher files and on file 0 otherwise,
and every square strictly between the king's square and that rook's square is empty. -/
theorem castling_accepted_only_if (fuel : Nat) (b : ChessBoard) (sx sy ex ey : Int)
    (hs : onGrid sx sy) (he : onGrid ex ey) (c : Char)
    (hk : b.m_board sy sx = ⟨PieceType.KING, c⟩)
    (hdx : iabs (ex - sx) = 2) (hdy : iabs (ey - sy) = 0)
    (hv : isValidMove fuel b sx sy ex ey = Res.ok true) :
    (∀ m : Nat, fuel ≤ m → isInCheck m b c = Res.ok false) ∧
    b.m_board sy (if ex > sx then 7 else 0) = ⟨PieceType.ROOK, c⟩ ∧
    pathEmpty b sx sy (if ex > sx then 7 else 0) sy := by
  have hcol : (b.m_board sy sx).m_color ≠ (b.m_board ey ex).m_color := by
    intro h
    rw [isValidMove_same_color fuel b sx sy ex ey hs he h] at hv
    exact absurd hv (by decide)
  rw [isValidMove_castle fuel b sx sy ex ey hs he c hk hdx hdy hcol] at hv
  have hr := rook_corner_onGrid ex hs
  rw [read_onGrid b hr] at hv
  simp only [Res.ok_bind] at hv
  cases hic : nestedInCheck fuel b c with
  | outOfRange => rw [hic] at hv; exact absurd hv (by simp [Res.bind])
  | outOfFuel => rw [hic] at hv; exact absurd hv (by simp [Res.bind])
  | ok chk =>
    rw [hic, Res.ok_bind] at hv
    cases chk with
    | true => exact absurd hv (by simp)
    | false =>
      simp only [Bool.not_false, if_true] at hv
      by_cases hrook : (b.m_board sy (if ex > sx then 7 else 0)).m_type = PieceType.ROOK ∧
          (b.m_board sy (if ex > sx then 7 else 0)).m_color = c
      · rw [if_pos hrook] at hv
        refine ⟨?_, ?_, ?_⟩
        · intro m hm
          cases fuel with
          | zero => exact absurd hic (by simp [nestedInCheck])
          | succ k =>
            exact Res.le_ok (isInCheck_mono (by omega) b c) hic
        · cases hcell : b.m_board sy (if ex > sx then 7 else 0) with
          | mk t col =>
            rw [hcell] at hrook
            simp only at hrook
            rw [hrook.1, hrook.2]
        · have h7 : isPathClear (fuel + 7) b sx sy (if ex > sx then 7 else 0) sy = Res.ok true :=
            Res.le_ok (isPathClear_mono (by omega) b _ _ _ _) hv
          obtain ⟨v, hv2, hiff⟩ := isPathClear_ok b sx sy _ sy hs hr (Or.inl rfl) (fuel + 7)
            (by omega)
          rw [h7] at hv2
          have hvt : v = true := by
            injection hv2 with h; exact h.symm
          exact hiff.mp hvt
      · rw [if_neg hrook] at hv
        exact absurd hv (by simp)

/-- Witness of C8 amended: the accepted move of `castleOnRank3`. -/
theorem castling_accepted_only_if_witness :
    (∀ m : Nat, 8 ≤ m → isInCheck m castleOnRank3 'W' = Res.ok false) ∧
    castleOnRank3.m_board 3 (if (6 : Int) > 4 then 7 else 0) = ⟨PieceType.ROOK, 'W'⟩ ∧
    pathEmpty castleOnRank3 4 3 (if (6 : Int) > 4 then 7 else 0) 3 :=
  castling_accepted_only_if 8 castleOnRank3 4 3 6 3 (by decide) (by decide) 'W' (by decide)
    (by decide) (by decide) (by decide)

/-! ## C9 -/

/-- C9 (fails on the code): on `kingsOpposedRook` exactly one square, `(4, 0)`, holds a White
king and the Black rook on `(4, 5)` has `isValidMove (4, 5) -> (4, 0)` true, yet `isInCheck 'W'`
never answers: the scan reaches the Black king on `(6, 0)` first and recurses without end. -/
theorem kingsOpposedRook_check_never_returns :
    (idx8.all fun y => idx8.all fun x =>
      decide (kingsOpposedRook.m_board y x = ⟨PieceType.KING, 'W'⟩ ↔ (x = 4 ∧ y = 0))) = true ∧
    kingsOpposedRook.m_board 5 4 = ⟨PieceType.ROOK, 'B'⟩ ∧
    isValidMove 7 kingsOpposedRook 4 5 4 0 = Res.ok true ∧
    ∀ fuel : Nat, isInCheck fuel kingsOpposedRook 'W' = Res.outOfFuel :=
  ⟨by decide, by decide, by decide, fun fuel =>
    opposed_check_W kingsOpposedRook kingsOpposedRook_row0 _
      (opposed_diverges kingsOpposedRook kingsOpposedRook_row0 fuel).2⟩

/-! ## C10 -/

/-- C10: for an accepted move between on-grid squares, the state update of `movePiece` succeeds,
every completed run of `movePiece` returns that state, and in it the end square holds the piece
that stood on start, the start square is empty, the square (end.file, end.rank - direction) is
on the grid and empty when the move is an en-passant capture, and every square other than
start, end and (for an en-passant capture) that square holds what it held before. -/
theorem movePiece_frame (fuel : Nat) (b : ChessBoard) (sx sy ex ey : Int)
    (hs : onGrid sx sy) (he : onGrid ex ey)
    (hv : isValidMove fuel b sx sy ex ey = Res.ok true) :
    ∃ b2 : ChessBoard, movePieceState b sx sy ex ey = Res.ok b2 ∧
      (∀ (f : Nat) (r : ChessBoard × String), movePiece f b sx sy ex ey = Res.ok r → r.1 = b2) ∧
      b2.m_board ey ex = b.m_board sy sx ∧
      b2.m_board sy sx = {} ∧
      (enPassantMove b sx sy ex ey →
        onGrid ex (ey - pawnDir (b.m_board sy sx).m_color) ∧
        b2.m_board (ey - pawnDir (b.m_board sy sx).m_color) ex = {}) ∧
      (∀ x y : Int, (x, y) ≠ (sx, sy) → (x, y) ≠ (ex, ey) →
        ¬ (enPassantMove b sx sy ex ey ∧
          (x, y) = (ex, ey - pawnDir (b.m_board sy sx).m_color)) →
        b2.m_board y x = b.m_board y x) := by
  obtain ⟨hne, _⟩ := isValidMove_colors_differ fuel b sx sy ex ey hs he hv
  have hd := pawnDir_cases (b.m_board sy sx).m_color
  by_cases hep : enPassantMove b sx sy ex ey
  · obtain ⟨hg, _, _⟩ := accepted_enPassant fuel b sx sy ex ey hs he hv hep
    have hst := movePieceState_enPassant b sx sy ex ey hs he hep hg
    have hxne : ¬ ex = sx := by
      have := hep.2.1; unfold iabs at this; omega
    refine ⟨_, hst, fun f r hr => movePiece_state b _ sx sy ex ey hst f r hr, ?_, ?_, ?_, ?_⟩
    · have h1 : ¬ (ey = ey - pawnDir (b.m_board sy sx).m_color) := by omega
      simp [ChessBoard.set, h1, hne, hxne]
    · have h1 : ¬ (sy = ey - pawnDir (b.m_board sy sx).m_color ∧ sx = ex) :=
        fun h => hxne h.2.symm
      simp [ChessBoard.set, h1]
    · intro _
      exact ⟨hg, by simp [ChessBoard.set]⟩
    · intro x y h1 h2 h3
      have h4 : ¬ (y = ey - pawnDir (b.m_board sy sx).m_color ∧ x = ex) :=
        fun h => h3 ⟨hep, by rw [h.1, h.2]⟩
      have h5 : ¬ (y = sy ∧ x = sx) := fun h => h1 (by rw [h.1, h.2])
      have h6 : ¬ (y = ey ∧ x = ex) := fun h => h2 (by rw [h.1, h.2])
      simp [ChessBoard.set, h4, h5, h6]
  · have hst := movePieceState_plain b sx sy ex ey hs he hep
    refine ⟨_, hst, fun f r hr => movePiece_state b _ sx sy ex ey hst f r hr, ?_, ?_, ?_, ?_⟩
    · have h1 : ¬ (ey = sy ∧ ex = sx) := fun h => hne ⟨h.2.symm, h.1.symm⟩
      simp [ChessBoard.set, h1]
    · simp [ChessBoard.set]
    · intro h; exact absurd h hep
    · intro x y h1 h2 _
      have h5 : ¬ (y = sy ∧ x = sx) := fun h => h1 (by rw [h.1, h.2])
      have h6 : ¬ (y = ey ∧ x = ex) := fun h => h2 (by rw [h.1, h.2])
      simp [ChessBoard.set, h5, h6]

/-- Witness of C10: the en-passant capture `(4, 4) -> (3, 5)` on `enPassantReady`. -/
theorem movePiece_frame_witness :
    ∃ b2 : ChessBoard, movePieceState enPassantReady 4 4 3 5 = Res.ok b2 ∧
      b2.m_board 5 3 = enPassantReady.m_board 4 4 ∧ b2.m_board 4 4 = {} :=
  let ⟨b2, h1, _, h3, h4, _⟩ := movePiece_frame 0 enPassantReady 4 4 3 5
    (by decide) (by decide) (by decide)
  ⟨b2, h1, h3, h4⟩

/-! ## C11 -/

/-- C11: for an accepted move between on-grid squares, after `movePiece` the
`m_enPassantTarget` is the skipped square (the one square strictly between start and end, on
the same file) when the moved piece is a pawn that advanced two ranks, and `(-1, -1)` after
every other move; the new value is fixed by the move alone, whatever the previous value was. -/
theorem movePiece_enPassantTarget (fuel : Nat) (b : ChessBoard) (sx sy ex ey : Int)
    (hs : onGrid sx sy) (he : onGrid ex ey)
    (hv : isValidMove fuel b sx sy ex ey = Res.ok true) :
    ∃ b2 : ChessBoard, movePieceState b sx sy ex ey = Res.ok b2 ∧
      (∀ (f : Nat) (r : ChessBoard × String), movePiece f b sx sy ex ey = Res.ok r → r.1 = b2) ∧
      ((b.m_board sy sx).m_type = PieceType.PAWN ∧ iabs (ey - sy) = 2 →
        sx = ex ∧ b2.m_enPassantTarget = (sx, sy + pawnDir (b.m_board sy sx).m_color) ∧
        (∀ x y : Int, strictlyBetween sx sy ex ey x y ↔ (x, y) = b2.m_enPassantTarget)) ∧
      (¬ ((b.m_board sy sx).m_type = PieceType.PAWN ∧ iabs (ey - sy) = 2) →
        b2.m_enPassantTarget = (-1, -1)) := by
  obtain ⟨b2, hst, htgt, _⟩ := movePieceState_accepted fuel b sx sy ex ey hs he hv
  refine ⟨b2, hst, fun f r hr => movePiece_state b b2 sx sy ex ey hst f r hr, ?_, ?_⟩
  · intro hp
    obtain ⟨hx, hy, _⟩ := accepted_double_step fuel b sx sy ex ey hs he hv hp.1 hp.2
    refine ⟨hx, by rw [htgt, if_pos hp], ?_⟩
    intro x y
    rw [htgt, if_pos hp, ← hx, hy]
    exact skipped_square_between (pawnDir_cases _) x y
  · intro hp
    rw [htgt, if_neg hp]

/-- Witness of C11: the double step `(4, 1) -> (4, 3)` in the initial position. -/
theorem movePiece_enPassantTarget_witness :
    ∃ b2 : ChessBoard,
      movePieceState (setInitialPositions ChessBoard.ctor) 4 1 4 3 = Res.ok b2 ∧
      ∀ x y : Int, strictlyBetween 4 1 4 3 x y ↔ (x, y) = b2.m_enPassantTarget :=
  let ⟨b2, h1, _, h3, _⟩ := movePiece_enPassantTarget 0 (setInitialPositions ChessBoard.ctor)
    4 1 4 3 (by decide) (by decide) (by decide)
  ⟨b2, h1, (h3 ⟨by decide, by decide⟩).2.2⟩

/-! ## C12 -/

/-- C12: on a board whose empty squares carry the default colour, if the double step of the
Black pawn from `(f, 6)` to `(f, 4)` is accepted then after `movePiece` the target is `(f, 5)`;
if a White pawn then stands on `(f - 1, 4)` or `(f + 1, 4)`, its move to the empty square
`(f, 5)` is accepted, and after `movePiece` applies it `(f, 4)` is empty, `(f, 5)` holds the
White pawn and the target is `(-1, -1)`. -/
theorem enPassant_round_trip (fuel : Nat) (b : ChessBoard) (f : Int)
    (hf : 0 ≤ f ∧ f < 8)
    (hdef : ∀ x y : Int, onGrid x y → (b.m_board y x).m_type = PieceType.NONE →
      (b.m_board y x).m_color = ' ')
    (hbp : b.m_board 6 f = ⟨PieceType.PAWN, 'B'⟩)
    (hv : isValidMove fuel b f 6 f 4 = Res.ok true) :
    ∃ b1 : ChessBoard, movePieceState b f 6 f 4 = Res.ok b1 ∧
      b1.m_enPassantTarget = (f, 5) ∧
      ∀ g : Int, (g = f - 1 ∨ g = f + 1) → onGrid g 4 →
        b1.m_board 4 g = ⟨PieceType.PAWN, 'W'⟩ →
        (b1.m_board 5 f).m_type = PieceType.NONE ∧
        (∀ fuel2 : Nat, isValidMove fuel2 b1 g 4 f 5 = Res.ok true) ∧
        ∃ b2 : ChessBoard, movePieceState b1 g 4 f 5 = Res.ok b2 ∧
          b2.m_board 4 f = {} ∧ b2.m_board 5 f = ⟨PieceType.PAWN, 'W'⟩ ∧
          b2.m_enPassantTarget = (-1, -1) := by
  have hs : onGrid f 6 := ⟨hf.1, hf.2, by decide, by decide⟩
  have he : onGrid f 4 := ⟨hf.1, hf.2, by decide, by decide⟩
  have h5 : onGrid f 5 := ⟨hf.1, hf.2, by decide, by decide⟩
  have hB : pawnDir 'B' = -1 := by decide
  have hW : pawnDir 'W' = 1 := by decide
  have hP : (b.m_board 6 f).m_type = PieceType.PAWN := by rw [hbp]
  have hc : (b.m_board 6 f).m_color = 'B' := by rw [hbp]
  obtain ⟨_, _, _, hmid, hend⟩ :=
    accepted_double_step fuel b f 6 f 4 hs he hv hP (by decide)
  rw [hc, hB] at hmid
  have hmid5 : (b.m_board 5 f).m_type = PieceType.NONE := hmid
  obtain ⟨b1, hst, htgt, hcells⟩ := movePieceState_accepted fuel b f 6 f 4 hs he hv
  have hnep : ¬ enPassantMove b f 6 f 4 := fun h => absurd h.2.2.1 (by decide)
  have hcell1 : ∀ x y : Int, b1.m_board y x =
      if y = 6 ∧ x = f then {} else if y = 4 ∧ x = f then ⟨PieceType.PAWN, 'B'⟩
      else b.m_board y x := by
    intro x y
    rw [hcells x y, hbp]
    simp only [hnep, and_false, if_false]
  have htgt1 : b1.m_enPassantTarget = (f, 5) := by
    rw [htgt, if_pos ⟨hP, by decide⟩, hc, hB]; rfl
  refine ⟨b1, hst, htgt1, ?_⟩
  intro g hg hg4 hwp
  have hgf : g ≠ f := adjacent_ne hg
  have e5 : b1.m_board 5 f = b.m_board 5 f := by
    rw [hcell1]; simp
  have e4 : b1.m_board 4 f = ⟨PieceType.PAWN, 'B'⟩ := by
    rw [hcell1]; simp
  have hE : (b1.m_board 5 f).m_type = PieceType.NONE := by rw [e5]; exact hmid5
  have hEc : (b1.m_board 5 f).m_color = ' ' := by rw [e5]; exact hdef f 5 h5 hmid5
  have hval : ∀ fuel2 : Nat, isValidMove fuel2 b1 g 4 f 5 = Res.ok true := by
    intro fuel2
    have hne : ¬ (g = f ∧ (4 : Int) = 5) := fun h => hgf h.1
    have hcol : (b1.m_board 4 g).m_color ≠ (b1.m_board 5 f).m_color := by
      rw [hwp, hEc]; decide
    rw [isValidMove_dispatch fuel2 b1 g 4 f 5 hg4 h5 hne hcol, hwp]
    obtain ⟨v, hv2, hiff⟩ := pawn_or b1 g 4 f 5 hg4 h5 'W' (by rw [hEc]; decide)
    have hvt : v = true := by
      rw [hiff]
      right; right; right
      refine ⟨iabs_adjacent hg, by decide, hE, by rw [htgt1], ?_, ?_, ?_⟩
      · rw [hW]; exact he
      · rw [hW]; show (b1.m_board 4 f).m_type = _; rw [e4]
      · rw [hW]; show (b1.m_board 4 f).m_color ≠ _; rw [e4]; decide
    rw [hv2, hvt]
  refine ⟨hE, hval, ?_⟩
  obtain ⟨b2, hst2, htgt2, hcells2⟩ := movePieceState_accepted 0 b1 g 4 f 5 hg4 h5 (hval 0)
  have hep : enPassantMove b1 g 4 f 5 :=
    ⟨by rw [hwp], iabs_adjacent hg, by decide, hE, by rw [htgt1]⟩
  refine ⟨b2, hst2, ?_, ?_, ?_⟩
  · rw [hcells2, hwp, hW]
    simp [hep]
  · rw [hcells2, hwp, hW]
    simp [hgf.symm]
  · rw [htgt2, hwp]
    simp [iabs]

/-- Witness of C12: the Black pawn of `enPassantStart` on file 3. -/
theorem enPassant_round_trip_witness :
    ∃ b1 : ChessBoard, movePieceState enPassantStart 3 6 3 4 = Res.ok b1 ∧
      b1.m_enPassantTarget = (3, 5) :=
  let ⟨b1, h1, h2, _⟩ := enPassant_round_trip 0 enPassantStart 3 (by decide)
    (by
      intro x y _ h
      unfold enPassantStart at h ⊢
      simp only at h ⊢
      split_ifs at h ⊢
      rfl)
    (by decide) (by decide)
  ⟨b1, h1, h2⟩

/-! ## C13 -/

/-- C13 (fails on the code): `rookBeforeCheck` holds exactly one White king, on `(4, 0)`; the
Black rook's move `(0, 5) -> (4, 5)` is accepted and afterwards the rook stands on the king's
file with the squares `(4, 1)` .. `(4, 4)` between them empty, yet `isInCheck 'W'` on the new
position, and with it `movePiece`, exhausts every amount of fuel: the scan meets the Black king
on `(6, 0)` before the rook and recurses without end. -/
theorem rook_move_check_never_returns :
    (idx8.all fun y => idx8.all fun x =>
      decide (rookBeforeCheck.m_board y x = ⟨PieceType.KING, 'W'⟩ ↔ (x = 4 ∧ y = 0))) = true ∧
    rookBeforeCheck.m_board 5 0 = ⟨PieceType.ROOK, 'B'⟩ ∧
    isValidMove 7 rookBeforeCheck 0 5 4 5 = Res.ok true ∧
    movePieceState rookBeforeCheck 0 5 4 5 = Res.ok rookAfterCheck ∧
    rookAfterCheck.m_board 5 4 = ⟨PieceType.ROOK, 'B'⟩ ∧
    rookAfterCheck.m_board 0 4 = ⟨PieceType.KING, 'W'⟩ ∧
    ([1, 2, 3, 4].all fun y =>
      decide ((rookAfterCheck.m_board y 4).m_type = PieceType.NONE)) = true ∧
    (∀ fuel : Nat, isInCheck fuel rookAfterCheck 'W' = Res.outOfFuel) ∧
    ∀ fuel : Nat, movePiece fuel rookBeforeCheck 0 5 4 5 = Res.outOfFuel := by
  have hchk : ∀ fuel : Nat, isInCheck fuel rookAfterCheck 'W' = Res.outOfFuel := fun fuel =>
    opposed_check_W rookAfterCheck rookAfterCheck_row0 _
      (opposed_diverges rookAfterCheck rookAfterCheck_row0 fuel).2
  refine ⟨by decide, by decide, by decide, rookBeforeCheck_move, by decide, by decide,
    by decide, hchk, ?_⟩
  intro fuel
  rw [movePiece_eq fuel _ _ 0 5 4 5 rookBeforeCheck_move (by decide)]
  have hc : (if (rookAfterCheck.m_board 5 4).m_color = 'W' then 'B' else 'W') = 'W' := by
    decide
  rw [hc, hchk fuel]
  rfl

/-! ## C14 -/

/-- C14: for `x`, `y` in 0..7, `toChess x y` is a two-character string whose first character
lies in `'a'..'h'` and whose second lies in `'1'..'8'`, and `toCoords` of these two characters
is `(x, y)`; conversely for a file letter `c` in `'a'..'h'` and a rank digit `r` in `'1'..'8'`,
`toChess` of `toCoords c r` is the string `c r`, and `toCoords c r` lies on the grid. -/
theorem toCoords_inverse_toChess :
    (∀ x y : Int, onGrid x y →
      ∃ c r : Char, toChess x y = String.mk [c, r] ∧
        'a'.toNat ≤ c.toNat ∧ c.toNat ≤ 'h'.toNat ∧ '1'.toNat ≤ r.toNat ∧ r.toNat ≤ '8'.toNat ∧
        toCoords c r = (x, y)) ∧
    (∀ c r : Char, 'a'.toNat ≤ c.toNat ∧ c.toNat ≤ 'h'.toNat →
      '1'.toNat ≤ r.toNat ∧ r.toNat ≤ '8'.toNat →
      toChess (toCoords c r).1 (toCoords c r).2 = String.mk [c, r] ∧
        onGrid (toCoords c r).1 (toCoords c r).2) :=
  ⟨toChess_toCoords, toCoords_toChess⟩

/-- Witness of C14: the square `(4, 6)` and the name `e2`. -/
theorem toCoords_inverse_toChess_witness :
    (∃ c r : Char, toChess 4 6 = String.mk [c, r] ∧
      'a'.toNat ≤ c.toNat ∧ c.toNat ≤ 'h'.toNat ∧ '1'.toNat ≤ r.toNat ∧ r.toNat ≤ '8'.toNat ∧
      toCoords c r = (4, 6)) ∧
    toChess (toCoords 'e' '2').1 (toCoords 'e' '2').2 = String.mk ['e', '2'] ∧
      onGrid (toCoords 'e' '2').1 (toCoords 'e' '2').2 :=
  ⟨toCoords_inverse_toChess.1 4 6 (by decide),
    toCoords_inverse_toChess.2 'e' '2' (by decide) (by decide)⟩

/-! ## C15 -/

/-- C15: `castling` returns true iff (`str` is "e1g1" or "e1c1" and "e1" does not occur in
`position`) or (`str` is "e8g8" or "e8c8" and "e8" does not occur in `position`); when it
returns true, `rookStart` and `rookEnd` are what `toCoords` gives for `h` and `f` (king to the
g file) or for `a` and `d` (king to the c file) with the rank digit of the king's move; when it
returns false, `rookStart` and `rookEnd` keep their values. -/
theorem castling_spec (str position : String) (rookStart rookEnd : Int × Int) :
    ((castling str position rookStart rookEnd).1 = true ↔
      ((str = "e1g1" ∨ str = "e1c1") ∧ ¬ occursIn ['e', '1'] position.data) ∨
      ((str = "e8g8" ∨ str = "e8c8") ∧ ¬ occursIn ['e', '8'] position.data)) ∧
    ((castling str position rookStart rookEnd).1 = true →
      ∃ d : Char,
        (str = String.mk ['e', d, 'g', d] ∧
          (castling str position rookStart rookEnd).2 = (toCoords 'h' d, toCoords 'f' d)) ∨
        (str = String.mk ['e', d, 'c', d] ∧
          (castling str position rookStart rookEnd).2 = (toCoords 'a' d, toCoords 'd' d))) ∧
    ((castling str position rookStart rookEnd).1 = false →
      (castling str position rookStart rookEnd).2 = (rookStart, rookEnd)) := by
  rw [← stdFind_none_iff, ← stdFind_none_iff, castling_eq]
  by_cases h4 : str = "e8c8" ∧ stdFind ['e', '8'] position.data = none
  · rw [if_pos h4]
    refine ⟨⟨fun _ => Or.inr ⟨Or.inr h4.1, h4.2⟩, fun _ => rfl⟩, fun _ => ?_,
      fun h => absurd h (by decide)⟩
    exact ⟨'8', Or.inr ⟨h4.1, rfl⟩⟩
  · rw [if_neg h4]
    by_cases h3 : str = "e1c1" ∧ stdFind ['e', '1'] position.data = none
    · rw [if_pos h3]
      refine ⟨⟨fun _ => Or.inl ⟨Or.inr h3.1, h3.2⟩, fun _ => rfl⟩, fun _ => ?_,
        fun h => absurd h (by decide)⟩
      exact ⟨'1', Or.inr ⟨h3.1, rfl⟩⟩
    · rw [if_neg h3]
      by_cases h2 : str = "e8g8" ∧ stdFind ['e', '8'] position.data = none
      · rw [if_pos h2]
        refine ⟨⟨fun _ => Or.inr ⟨Or.inl h2.1, h2.2⟩, fun _ => rfl⟩, fun _ => ?_,
          fun h => absurd h (by decide)⟩
        exact ⟨'8', Or.inl ⟨h2.1, rfl⟩⟩
      · rw [if_neg h2]
        by_cases h1 : str = "e1g1" ∧ stdFind ['e', '1'] position.data = none
        · rw [if_pos h1]
          refine ⟨⟨fun _ => Or.inl ⟨Or.inl h1.1, h1.2⟩, fun _ => rfl⟩, fun _ => ?_,
            fun h => absurd h (by decide)⟩
          exact ⟨'1', Or.inl ⟨h1.1, rfl⟩⟩
        · rw [if_neg h1]
          refine ⟨⟨fun h => Bool.noConfusion h, ?_⟩, fun h => Bool.noConfusion h,
            fun _ => rfl⟩
          rintro (⟨h5 | h5, h6⟩ | ⟨h5 | h5, h6⟩)
          · exact absurd ⟨h5, h6⟩ h1
          · exact absurd ⟨h5, h6⟩ h3
          · exact absurd ⟨h5, h6⟩ h2
          · exact absurd ⟨h5, h6⟩ h4

/-- Witness of C15: the king's move "e1g1" with a history that does not mention "e1". -/
theorem castling_spec_witness :
    (castling "e1g1" "e2e4 e7e5" (0, 0) (0, 0)).1 = true :=
  (castling_spec "e1g1" "e2e4 e7e5" (0, 0) (0, 0)).1.mpr
    (Or.inl ⟨Or.inl rfl, (stdFind_none_iff _ _).mp (by decide)⟩)

/-! ## C16 -/

/-- C16 as stated fails: `kingAttacked` holds exactly one White and one Black king, the move
`(4, 7) -> (4, 0)` of the Black rook onto the White king's square is accepted, and the position
`kingTaken` after it holds no White king. -/
theorem king_capture_counterexample :
    exactlyOneKing kingAttacked 'W' ∧ exactlyOneKing kingAttacked 'B' ∧
    isValidMove 7 kingAttacked 4 7 4 0 = Res.ok true ∧
    movePieceState kingAttacked 4 7 4 0 = Res.ok kingTaken ∧
    ¬ exactlyOneKing kingTaken 'W' := by
  refine ⟨kingAttacked_white, kingAttacked_black, by decide, ?_, ?_⟩
  · rw [movePieceState_plain kingAttacked 4 7 4 0 (by decide) (by decide)
      (fun h => absurd h.1 (by decide))]
    rfl
  · rintro ⟨kx, ky, hg, hk⟩
    exact kingTaken_no_white_king kx ky ((hk kx ky hg).mpr ⟨rfl, rfl⟩)

/-- C16 amended: on a board with exactly one White King and exactly one Black King, after an
accepted move whose end square does not hold a King the board still holds exactly one White
King and exactly one Black King. -/
theorem kings_preserved (fuel : Nat) (b : ChessBoard) (sx sy ex ey : Int)
    (hs : onGrid sx sy) (he : onGrid ex ey)
    (hv : isValidMove fuel b sx sy ex ey = Res.ok true)
    (hnk : (b.m_board ey ex).m_type ≠ PieceType.KING)
    (hW : exactlyOneKing b 'W') (hB : exactlyOneKing b 'B') :
    ∃ b2 : ChessBoard, movePieceState b sx sy ex ey = Res.ok b2 ∧
      (∀ (f : Nat) (r : ChessBoard × String), movePiece f b sx sy ex ey = Res.ok r → r.1 = b2) ∧
      exactlyOneKing b2 'W' ∧ exactlyOneKing b2 'B' := by
  obtain ⟨b2, hst, _, hcells⟩ := movePieceState_accepted fuel b sx sy ex ey hs he hv
  exact ⟨b2, hst, fun f r hr => movePiece_state b b2 sx sy ex ey hst f r hr,
    exactlyOneKing_preserved fuel b b2 sx sy ex ey hs he hv hnk hcells 'W' hW,
    exactlyOneKing_preserved fuel b b2 sx sy ex ey hs he hv hnk hcells 'B' hB⟩

/-- Witness of C16 amended: the king's step `(4, 0) -> (5, 0)` on `kingAttacked`. -/
theorem kings_preserved_witness :
    ∃ b2 : ChessBoard, movePieceState kingAttacked 4 0 5 0 = Res.ok b2 ∧
      exactlyOneKing b2 'W' ∧ exactlyOneKing b2 'B' :=
  let ⟨b2, h1, _, h3, h4⟩ := kings_preserved 0 kingAttacked 4 0 5 0 (by decide) (by decide)
    (by decide) (by decide) kingAttacked_white kingAttacked_black
  ⟨b2, h1, h3, h4⟩

/-! ## C17 -/

/-- C17: for an accepted move between on-grid squares (whatever `m_enPassantTarget` is), the
state update of `movePiece` succeeds, no run of `movePiece` ever reads or writes outside the
grid, and when the move is an en-passant capture the captured pawn's rank
end.rank - direction lies in 0..7. -/
theorem movePiece_in_range (fuel : Nat) (b : ChessBoard) (sx sy ex ey : Int)
    (hs : onGrid sx sy) (he : onGrid ex ey)
    (hv : isValidMove fuel b sx sy ex ey = Res.ok true) :
    (∃ b2 : ChessBoard, movePieceState b sx sy ex ey = Res.ok b2) ∧
    (∀ f : Nat, movePiece f b sx sy ex ey ≠ Res.outOfRange) ∧
    (enPassantMove b sx sy ex ey →
      0 ≤ ey - pawnDir (b.m_board sy sx).m_color ∧
        ey - pawnDir (b.m_board sy sx).m_color < 8) := by
  obtain ⟨b2, hst, _⟩ := movePieceState_accepted fuel b sx sy ex ey hs he hv
  refine ⟨⟨b2, hst⟩, ?_, ?_⟩
  · intro f
    rw [movePiece_eq f b b2 sx sy ex ey hst he]
    exact bind_ne_outOfRange (isInCheck_inRange f b2 _) fun chk => ok_ne_outOfRange _
  · intro hep
    obtain ⟨hg, _, _⟩ := accepted_enPassant fuel b sx sy ex ey hs he hv hep
    exact ⟨hg.2.2.1, hg.2.2.2⟩

/-- Witness of C17: the en-passant capture `(4, 4) -> (3, 5)` on `enPassantReady`. -/
theorem movePiece_in_range_witness :
    (∃ b2 : ChessBoard, movePieceState enPassantReady 4 4 3 5 = Res.ok b2) ∧
    ∀ f : Nat, movePiece f enPassantReady 4 4 3 5 ≠ Res.outOfRange :=
  ⟨(movePiece_in_range 0 enPassantReady 4 4 3 5 (by decide) (by decide) (by decide)).1,
    (movePiece_in_range 0 enPassantReady 4 4 3 5 (by decide) (by decide) (by decide)).2.1⟩

/-! ## C18 -/

/-- C18 (fails on the code): on `pawnsFacing` the White pawn on `(4, 4)` may capture backward
on `(3, 3)`, the White pawn on `(4, 6)` may capture en passant backward onto the empty target
`(3, 5)`, and the Black pawn on `(3, 3)` may capture backward on `(4, 4)`: the rank difference
is not positive for White and not negative for Black. -/
theorem pawn_backward_capture_accepted :
    pawnsFacing.m_board 4 4 = ⟨PieceType.PAWN, 'W'⟩ ∧
    isValidMove 0 pawnsFacing 4 4 3 3 = Res.ok true ∧ ¬ ((0 : Int) < 3 - 4) ∧
    pawnsFacing.m_board 6 4 = ⟨PieceType.PAWN, 'W'⟩ ∧
    (pawnsFacing.m_board 5 3).m_type = PieceType.NONE ∧
    pawnsFacing.m_enPassantTarget = (3, 5) ∧
    isValidMove 0 pawnsFacing 4 6 3 5 = Res.ok true ∧ ¬ ((0 : Int) < 5 - 6) ∧
    pawnsFacing.m_board 3 3 = ⟨PieceType.PAWN, 'B'⟩ ∧
    isValidMove 0 pawnsFacing 3 3 4 4 = Res.ok true ∧ ¬ ((4 : Int) - 3 < 0) := by
  decide

/-! ## C19 -/

/-- C19 as stated fails: after `setInitialPositions` on the constructor's board the White King
stands on `(4, 0)` and the Black King on `(4, 7)`, but `toChess 4 0` is not "e1" and
`toChess 4 7` is not "e8". -/
theorem toChess_white_king_counterexample :
    (setInitialPositions ChessBoard.ctor).m_board 0 4 = ⟨PieceType.KING, 'W'⟩ ∧
    toChess 4 0 ≠ "e1" ∧
    (setInitialPositions ChessBoard.ctor).m_board 7 4 = ⟨PieceType.KING, 'B'⟩ ∧
    toChess 4 7 ≠ "e8" := by
  decide

/-- C19 amended: after `setInitialPositions` on the constructor's board, the square `(4, 0)` of
the White King is named "e8" and the square `(4, 7)` of the Black King is named "e1"; every
square `(x, 0)` of White's back rank gets the rank digit `'8'` and every square `(x, 7)` of
Black's back rank gets the rank digit `'1'`. -/
theorem toChess_back_ranks (x : Int) (hx : 0 ≤ x ∧ x < 8) :
    (setInitialPositions ChessBoard.ctor).m_board 0 4 = ⟨PieceType.KING, 'W'⟩ ∧
    toChess 4 0 = "e8" ∧
    (setInitialPositions ChessBoard.ctor).m_board 7 4 = ⟨PieceType.KING, 'B'⟩ ∧
    toChess 4 7 = "e1" ∧
    (setInitialPositions ChessBoard.ctor).m_board 0 x = ⟨backRankType x, 'W'⟩ ∧
    toChess x 0 = String.mk [toChar (97 + x), '8'] ∧
    (setInitialPositions ChessBoard.ctor).m_board 7 x = ⟨backRankType x, 'B'⟩ ∧
    toChess x 7 = String.mk [toChar (97 + x), '1'] := by
  obtain ⟨h0, h8⟩ := hx
  refine ⟨by decide, by decide, by decide, by decide, ?_, rfl, ?_, rfl⟩
  · interval_cases x <;> decide
  · interval_cases x <;> decide

/-- Witness of C19 amended, on file 4. -/
theorem toChess_back_ranks_witness :
    toChess 4 0 = "e8" ∧ toChess 4 7 = "e1" :=
  ⟨(toChess_back_ranks 4 (by decide)).2.1, (toChess_back_ranks 4 (by decide)).2.2.2.1⟩

/-! ## C20 -/

/-- C20: on every board `setInitialPositions` leaves the squares of ranks 2..5 and
`m_enPassantTarget` as they were and puts the standard layout on ranks 0, 1, 6 and 7 whatever
they held; applying it twice is applying it once; and ranks 2..5 are empty afterwards exactly
when they were empty before. -/
theorem setInitialPositions_frame (b : ChessBoard) :
    (∀ x y : Int, onGrid x y →
      (2 ≤ y ∧ y ≤ 5 → (setInitialPositions b).m_board y x = b.m_board y x) ∧
      (y = 0 → (setInitialPositions b).m_board y x = ⟨backRankType x, 'W'⟩) ∧
      (y = 1 → (setInitialPositions b).m_board y x = ⟨PieceType.PAWN, 'W'⟩) ∧
      (y = 6 → (setInitialPositions b).m_board y x = ⟨PieceType.PAWN, 'B'⟩) ∧
      (y = 7 → (setInitialPositions b).m_board y x = ⟨backRankType x, 'B'⟩)) ∧
    (setInitialPositions b).m_enPassantTarget = b.m_enPassantTarget ∧
    setInitialPositions (setInitialPositions b) = setInitialPositions b ∧
    ((∀ x y : Int, onGrid x y → 2 ≤ y ∧ y ≤ 5 →
        ((setInitialPositions b).m_board y x).m_type = PieceType.NONE) ↔
      (∀ x y : Int, onGrid x y → 2 ≤ y ∧ y ≤ 5 → (b.m_board y x).m_type = PieceType.NONE)) := by
  have hmid : ∀ x y : Int, 2 ≤ y ∧ y ≤ 5 →
      (setInitialPositions b).m_board y x = b.m_board y x := by
    intro x y hy
    rw [setInitialPositions_cell, if_neg]
    rintro ⟨_, h⟩
    unfold writtenRank at h
    omega
  have hw : ∀ x y : Int, onGrid x y → writtenRank y →
      (setInitialPositions b).m_board y x = standardPiece x y := by
    intro x y hg hy
    rw [setInitialPositions_cell, if_pos ⟨hg, hy⟩]
  refine ⟨fun x y hg => ⟨hmid x y, ?_, ?_, ?_, ?_⟩, setInitialPositions_target b, ?_, ?_⟩
  · intro h; subst h; rw [hw x 0 hg (Or.inl rfl)]; rfl
  · intro h; subst h; rw [hw x 1 hg (Or.inr (Or.inl rfl))]; rfl
  · intro h; subst h; rw [hw x 6 hg (Or.inr (Or.inr (Or.inl rfl)))]; rfl
  · intro h; subst h; rw [hw x 7 hg (Or.inr (Or.inr (Or.inr rfl)))]; rfl
  · refine board_ext _ _ (funext fun y => funext fun x => ?_) (setInitialPositions_target _)
    rw [setInitialPositions_cell (setInitialPositions b), setInitialPositions_cell b]
    split_ifs <;> rfl
  · constructor
    · intro h x y hg hy; rw [← hmid x y hy]; exact h x y hg hy
    · intro h x y hg hy; rw [hmid x y hy]; exact h x y hg hy

/-- Witness of C20: the square `(0, 3)` of `kingAttacked` is left alone. -/
theorem setInitialPositions_frame_witness :
    (setInitialPositions kingAttacked).m_board 3 0 = kingAttacked.m_board 3 0 :=
  ((setInitialPositions_frame kingAttacked).1 0 3 (by decide)).1 (by decide)

end ChessValidator
